/-
Verification of the lineup-optimization and rotation-simulation engine
(`src/optimization.py` of tanjeemh/paraolympic-lineup).

Embedding conventions:
* Python floats are modelled as exact numbers: quantities that never pass
  through `exp` (ratings, minutes, caps, penalty weights) live in `ℚ`;
  quantities downstream of `np.exp` (fatigue factors, model predictions,
  scores) live in `ℝ`.
* Python dicts are association lists `List (String × ℚ)` in insertion
  order; `dict.get(p, d)` is `dget`/`List.lookup`, `d[p] = v` is `dset`.
* `rating_map[p]` on a missing key raises `KeyError`; fallible code
  returns `Except SimErr`.  `SimErr.noneUnpack` models the `TypeError`
  raised when `simulate_rotation_plan` unpacks a `None` returned by
  `pick_best_lineup`.
* The impact model is an opaque function from the feature vector (the
  values of the pandas row in `X_columns` order) to a real number.
-/
import Mathlib

set_option maxHeartbeats 1000000

/-- Errors surfaced by the engine.  `missingRating` is Python's `KeyError`
on the rating lookup; `noneUnpack` is the `TypeError` raised when the
simulator unpacks `None`; `insufficientRoster` is the error class named by
the specification (the source never raises it). -/
inductive SimErr where
  | missingRating (p : String)
  | noneUnpack
  | insufficientRoster
  deriving DecidableEq

/-- `d.get(p, 0.0)` on a Python dict modelled as an association list. -/
def dget (m : List (String × ℚ)) (p : String) : ℚ :=
  (List.lookup p m).getD 0

/-- `d[p] = v` on a Python dict: replace the first binding of `p`,
appending a new binding when `p` is absent (insertion order preserved). -/
def dset : List (String × ℚ) → String → ℚ → List (String × ℚ)
  | [], p, v => [(p, v)]
  | (q, w) :: rest, p, v =>
    if q = p then (q, v) :: rest else (q, w) :: dset rest p v

/-- `fatigue_factor(minutes_played, alpha, floor=0.70)`:
`max(floor, exp(-alpha * minutes_played))`. -/
noncomputable def fatigue_factor (minutes_played alpha : ℝ) (floor : ℝ := 7/10) : ℝ :=
  max floor (Real.exp (-(alpha * minutes_played)))

/-- `sum(float(rating_map[p]) for p in l)` starting from `acc`: fails with
`KeyError` at the first member missing from the rating map. -/
def ratingSumE (rating_map : List (String × ℚ)) : List String → ℚ → Except SimErr ℚ
  | [], acc => .ok acc
  | p :: ps, acc =>
    match List.lookup p rating_map with
    | some r => ratingSumE rating_map ps (acc + r)
    | none => .error (.missingRating p)

/-- The loop body of `enumerate_valid_lineups`: fold over the candidate
combinations, appending each one whose summed rating is within the cap. -/
def enumAux (rating_map : List (String × ℚ)) (max_points : ℚ) :
    List (List String) → List (List String × ℚ) → Except SimErr (List (List String × ℚ))
  | [], acc => .ok acc
  | c :: cs, acc =>
    match ratingSumE rating_map c 0 with
    | .error e => .error e
    | .ok total => enumAux rating_map max_points cs (if total ≤ max_points then acc ++ [(c, total)] else acc)

/-- `enumerate_valid_lineups(roster, rating_map, max_points)`:
`itertools.combinations(roster, 4)` is the length-4 sublists of `roster`. -/
def enumerate_valid_lineups (roster : List String) (rating_map : List (String × ℚ))
    (max_points : ℚ) : Except SimErr (List (List String × ℚ)) :=
  enumAux rating_map max_points (List.sublistsLen 4 roster) []

/-- The single-row feature vector of the scorer, as a function of column
name.  The pandas row starts at `0.0` on `X_columns`; assignments in
source order are player indicators, `total_rating`, `is_home`, opponent
dummies — later assignments win, hence the nested-if precedence. -/
def featureRow (lineup : List String) (total_rating is_home : ℚ)
    (opp_dummy_cols : List String) : String → ℝ := fun c =>
  if c ∈ opp_dummy_cols then 0
  else if c = "is_home" then (is_home : ℝ)
  else if c = "total_rating" then (total_rating : ℝ)
  else if c ∈ lineup then 1
  else 0

/-- `lineup_score_from_model`: build the single-row feature vector, query
the model, then apply the fatigue scaling and the equity / overuse
penalties. -/
noncomputable def lineup_score_from_model
    (model : List ℝ → ℝ) (X_columns : List String) (lineup : List String)
    (rating_map : List (String × ℚ)) (is_home : ℚ) (opp_dummy_cols : Option (List String))
    (fatigue_alpha : ℚ) (minutes_played : Option (List (String × ℚ)))
    (equity_target : Option (List (String × ℚ))) (equity_lambda : ℚ)
    (overuse_lambda : ℚ) (max_minutes : Option (List (String × ℚ))) :
    Except SimErr ℝ :=
  let minutes := minutes_played.getD (lineup.map fun p => (p, (0 : ℚ)))
  let eqt := equity_target.getD []
  let mxm := max_minutes.getD []
  match ratingSumE rating_map lineup 0 with
  | .error e => .error e
  | .ok total_rating =>
    let row : String → ℝ := featureRow lineup total_rating is_home (opp_dummy_cols.getD [])
    let base := model (X_columns.map row)
    let f_list := lineup.map fun p => fatigue_factor ((dget minutes p : ℚ) : ℝ) (fatigue_alpha : ℝ)
    let fatigue_scale := f_list.sum / (f_list.length : ℝ)
    let fatigue_adjusted := base * fatigue_scale
    let eq_pen : ℚ := (lineup.foldl (fun acc p =>
        match List.lookup p eqt with
        | some t => acc + |dget minutes p - t|
        | none => acc) 0) * equity_lambda
    let ov_pen : ℚ := (lineup.foldl (fun acc p =>
        match List.lookup p mxm with
        | some mx => if dget minutes p - mx > 0 then acc + (dget minutes p - mx) else acc
        | none => acc) 0) * overuse_lambda
    .ok (fatigue_adjusted - (eq_pen : ℝ) - (ov_pen : ℝ))

/-- The loop of `pick_best_lineup`: state is `(best, best_score)`,
initially `(None, -1e18)`; a candidate replaces the incumbent only on a
strictly greater score. -/
noncomputable def pickAux (model : List ℝ → ℝ) (X_columns : List String)
    (rating_map : List (String × ℚ)) (is_home : ℚ) (fatigue_alpha : ℚ)
    (minutes_played equity_target : Option (List (String × ℚ)))
    (equity_lambda overuse_lambda : ℚ) (max_minutes : Option (List (String × ℚ)))
    (opp_dummy_cols : Option (List String)) :
    List (List String × ℚ) → Option (List String × ℚ × ℝ) × ℝ →
      Except SimErr (Option (List String × ℚ × ℝ) × ℝ)
  | [], st => .ok st
  | (lineup, total) :: rest, st =>
    match lineup_score_from_model model X_columns lineup rating_map is_home
        opp_dummy_cols fatigue_alpha minutes_played equity_target equity_lambda
        overuse_lambda max_minutes with
    | .error e => .error e
    | .ok score =>
      pickAux model X_columns rating_map is_home fatigue_alpha minutes_played
        equity_target equity_lambda overuse_lambda max_minutes opp_dummy_cols rest
        (if score > st.2 then (some (lineup, total, score), score) else st)

/-- `pick_best_lineup`: returns `none` (Python `None`) when no candidate
ever beats the `-1e18` sentinel — in particular on an empty candidate
list. -/
noncomputable def pick_best_lineup (model : List ℝ → ℝ) (X_columns : List String)
    (valid_lineups : List (List String × ℚ)) (rating_map : List (String × ℚ))
    (is_home : ℚ) (fatigue_alpha : ℚ)
    (minutes_played equity_target : Option (List (String × ℚ)))
    (equity_lambda overuse_lambda : ℚ) (max_minutes : Option (List (String × ℚ)))
    (opp_dummy_cols : Option (List String)) :
    Except SimErr (Option (List String × ℚ × ℝ)) :=
  match pickAux model X_columns rating_map is_home fatigue_alpha minutes_played
      equity_target equity_lambda overuse_lambda max_minutes opp_dummy_cols
      valid_lineups (none, -(10 ^ 18 : ℝ)) with
  | .error e => .error e
  | .ok st => .ok st.1

/-- One schedule row.  The source serialises the lineup for display as
`", ".join(lineup)`; the members themselves are kept here. -/
structure Row where
  block : ℕ
  start_min : ℚ
  end_min : ℚ
  lineup : List String
  rating : ℚ
  score : ℝ

/-- Mutable state of the simulation loop: current clock `t`, the
`minutes_played` dict, and the accumulated schedule rows. -/
structure SimState where
  t : ℚ
  minutes : List (String × ℚ)
  rows : List Row

/-- `int(np.ceil(game_minutes / block_minutes))`, as consumed by
`range(...)` (a negative value yields zero iterations). -/
def nBlocks (game_minutes block_minutes : ℚ) : ℕ :=
  (⌈game_minutes / block_minutes⌉).toNat

/-- One iteration of the simulator's block loop: pick the best lineup
(unpacking `None` raises), credit each selected player the full
`block_minutes`, and append the schedule row with the clamped block end. -/
noncomputable def simStep (model : List ℝ → ℝ) (X_columns : List String)
    (rating_map : List (String × ℚ)) (is_home fatigue_alpha : ℚ)
    (target : List (String × ℚ)) (equity_lambda overuse_lambda : ℚ)
    (max_minutes : List (String × ℚ)) (block_minutes game_minutes : ℚ)
    (valid_lineups : List (List String × ℚ)) (st : SimState) (k : ℕ) :
    Except SimErr SimState :=
  match pick_best_lineup model X_columns valid_lineups rating_map is_home
      fatigue_alpha (some st.minutes) (some target) equity_lambda overuse_lambda
      (some max_minutes) none with
  | .error e => .error e
  | .ok none => .error .noneUnpack
  | .ok (some (lineup, total, score)) =>
    .ok
      { t := st.t + block_minutes
        minutes := lineup.foldl (fun m p => dset m p (dget m p + block_minutes)) st.minutes
        rows := st.rows ++ [{ block := k + 1, start_min := st.t,
                              end_min := min game_minutes (st.t + block_minutes),
                              lineup := lineup, rating := total, score := score }] }

/-- The simulator's `for k in range(n_blocks)` loop. -/
noncomputable def simLoop (model : List ℝ → ℝ) (X_columns : List String)
    (rating_map : List (String × ℚ)) (is_home fatigue_alpha : ℚ)
    (target : List (String × ℚ)) (equity_lambda overuse_lambda : ℚ)
    (max_minutes : List (String × ℚ)) (block_minutes game_minutes : ℚ)
    (valid_lineups : List (List String × ℚ)) :
    List ℕ → SimState → Except SimErr SimState
  | [], st => .ok st
  | k :: ks, st =>
    match simStep model X_columns rating_map is_home fatigue_alpha target
        equity_lambda overuse_lambda max_minutes block_minutes game_minutes
        valid_lineups st k with
    | .error e => .error e
    | .ok st' =>
      simLoop model X_columns rating_map is_home fatigue_alpha target
        equity_lambda overuse_lambda max_minutes block_minutes game_minutes
        valid_lineups ks st'

/-- `simulate_rotation_plan`: filter out injured players, derive the equity
targets and the per-player cap once, enumerate valid lineups once, then run
the block loop from the all-zero minutes dict. -/
noncomputable def simulate_rotation_plan (model : List ℝ → ℝ) (X_columns : List String)
    (roster : List String) (rating_map : List (String × ℚ))
    (game_minutes block_minutes max_points : ℚ) (injured : List String)
    (is_home fatigue_alpha min_minutes_per_player max_minutes_per_player
      equity_lambda overuse_lambda : ℚ) :
    Except SimErr (List Row × List (String × ℚ)) :=
  let available := roster.filter (fun p => decide (p ∉ injured))
  let target : List (String × ℚ) :=
    if 0 < available.length then
      available.map (fun p =>
        (p, max min_minutes_per_player (game_minutes * 4 / (available.length : ℚ))))
    else []
  let max_minutes := available.map (fun p => (p, max_minutes_per_player))
  let minutes0 := available.map (fun p => (p, (0 : ℚ)))
  match enumerate_valid_lineups available rating_map max_points with
  | .error e => .error e
  | .ok valid_lineups =>
    match simLoop model X_columns rating_map is_home fatigue_alpha target
        equity_lambda overuse_lambda max_minutes block_minutes game_minutes
        valid_lineups (List.range (nBlocks game_minutes block_minutes)) ⟨0, minutes0, []⟩ with
    | .error e => .error e
    | .ok st => .ok (st.rows, st.minutes)

/-! ### Dictionary lemmas -/

theorem dget_nil (p : String) : dget [] p = 0 := rfl

theorem dget_cons_self (q : String) (w : ℚ) (rest : List (String × ℚ)) :
    dget ((q, w) :: rest) q = w := by
  rw [dget, List.lookup_cons, beq_self_eq_true]
  rfl

theorem dget_cons_ne (p q : String) (w : ℚ) (rest : List (String × ℚ)) (h : p ≠ q) :
    dget ((q, w) :: rest) p = dget rest p := by
  rw [dget, List.lookup_cons, beq_false_of_ne h]
  rfl

theorem dget_dset_self (m : List (String × ℚ)) (p : String) (v : ℚ) :
    dget (dset m p v) p = v := by
  induction m with
  | nil => exact dget_cons_self p v []
  | cons qw rest ih =>
    obtain ⟨q, w⟩ := qw
    by_cases h : q = p
    · subst h
      rw [dset, if_pos rfl]
      exact dget_cons_self q v rest
    · rw [dset, if_neg h, dget_cons_ne p q w _ (Ne.symm h)]
      exact ih

theorem dget_dset_ne (m : List (String × ℚ)) (p q : String) (v : ℚ) (h : q ≠ p) :
    dget (dset m p v) q = dget m q := by
  induction m with
  | nil => rw [dset]; exact dget_cons_ne q p v [] h
  | cons rw' rest ih =>
    obtain ⟨r, w⟩ := rw'
    by_cases hr : r = p
    · subst hr
      rw [dset, if_pos rfl, dget_cons_ne q r v rest h, dget_cons_ne q r w rest h]
    · rw [dset, if_neg hr]
      by_cases hqr : q = r
      · subst hqr
        rw [dget_cons_self, dget_cons_self]
      · rw [dget_cons_ne q r w _ hqr, dget_cons_ne q r w rest hqr]
        exact ih

theorem dset_map_fst (m : List (String × ℚ)) (p : String) (v : ℚ)
    (h : p ∈ m.map Prod.fst) : (dset m p v).map Prod.fst = m.map Prod.fst := by
  induction m with
  | nil => simp at h
  | cons qw rest ih =>
    obtain ⟨q, w⟩ := qw
    by_cases hq : q = p
    · simp [dset, hq]
    · have h' : p ∈ rest.map Prod.fst := by
        rcases List.mem_cons.1 h with h1 | h1
        · exact absurd h1.symm hq
        · exact h1
      simp [dset, hq, ih h']

theorem dget_eq_zero_of_not_mem (m : List (String × ℚ)) (p : String)
    (h : p ∉ m.map Prod.fst) : dget m p = 0 := by
  induction m with
  | nil => rfl
  | cons qw rest ih =>
    obtain ⟨q, w⟩ := qw
    simp only [List.map_cons, List.mem_cons] at h
    push_neg at h
    rw [dget_cons_ne p q w rest h.1]
    exact ih h.2

theorem dset_map_snd_sum (m : List (String × ℚ)) (p : String) (v : ℚ)
    (hmem : p ∈ m.map Prod.fst) (hnd : (m.map Prod.fst).Nodup) :
    ((dset m p v).map Prod.snd).sum = (m.map Prod.snd).sum + v - dget m p := by
  induction m with
  | nil => simp at hmem
  | cons qw rest ih =>
    obtain ⟨q, w⟩ := qw
    simp only [List.map_cons, List.nodup_cons] at hnd
    by_cases hq : q = p
    · subst hq
      rw [dset, if_pos rfl, dget_cons_self]
      simp only [List.map_cons, List.sum_cons]
      ring
    · have hmem' : p ∈ rest.map Prod.fst := by
        rcases List.mem_cons.1 hmem with h1 | h1
        · exact absurd h1.symm hq
        · exact h1
      rw [dset, if_neg hq, dget_cons_ne p q w rest (fun hh => hq hh.symm)]
      simp only [List.map_cons, List.sum_cons, ih hmem' hnd.2]
      ring

theorem dget_map_zero (l : List String) (p : String) :
    dget (l.map fun q => (q, (0 : ℚ))) p = 0 := by
  induction l with
  | nil => rfl
  | cons a t ih =>
    by_cases h : p = a
    · subst h
      exact dget_cons_self p 0 _
    · rw [List.map_cons, dget_cons_ne p a 0 _ h]
      exact ih

/-! ### FatigueFunction (claim C7) -/

/-- C7 counterexample: the clause `fatigue(m, alpha=0, floor=f) == 1.0 for
all m` fails when the floor exceeds 1: at `m = 5`, `alpha = 0`,
`floor = 2` the factor is `max(2, exp(0)) = 2`, not `1`. -/
theorem C7_counterexample :
    fatigue_factor 5 0 2 = 2 ∧ (2 : ℝ) ≠ 1 := by
  constructor
  · rw [fatigue_factor]
    norm_num [Real.exp_zero, max_def]
  · norm_num

/-- C7 (amended): `fatigue_factor` equals `max(floor, exp(-alpha*m))`; for
fixed `alpha > 0` it is non-increasing in minutes; it is bounded below by
`floor` for `m ≥ 0`; and with `alpha = 0` it is identically `1.0`
whenever `floor ≤ 1` (in particular at the default floor `0.70`). -/
theorem C7_fatigue_properties (m a f : ℝ) :
    fatigue_factor m a f = max f (Real.exp (-(a * m))) ∧
    (∀ m₁ m₂ : ℝ, 0 < a → m₁ ≤ m₂ → fatigue_factor m₂ a f ≤ fatigue_factor m₁ a f) ∧
    (0 ≤ m → f ≤ fatigue_factor m a f) ∧
    (f ≤ 1 → fatigue_factor m 0 f = 1) := by
  refine ⟨rfl, ?_, fun _ => le_max_left _ _, ?_⟩
  · intro m₁ m₂ ha hm
    have hexp : Real.exp (-(a * m₂)) ≤ Real.exp (-(a * m₁)) := by
      apply Real.exp_le_exp.2
      have := mul_le_mul_of_nonneg_left hm ha.le
      linarith
    exact max_le_max le_rfl hexp
  · intro hf
    rw [fatigue_factor, zero_mul, neg_zero, Real.exp_zero]
    exact max_eq_right hf

/-- C7 witness: the amended properties at concrete inputs — monotonicity
between 5 and 10 minutes at `alpha = 1`, and the `alpha = 0` clause at the
default floor `0.70`. -/
theorem C7_witness :
    (0 : ℝ) < 1 ∧ (5 : ℝ) ≤ 10 ∧
    fatigue_factor 10 1 (7/10) ≤ fatigue_factor 5 1 (7/10) ∧
    (7/10 : ℝ) ≤ 1 ∧ fatigue_factor 3 0 (7/10) = 1 :=
  ⟨by norm_num, by norm_num,
    (C7_fatigue_properties 0 1 (7/10)).2.1 5 10 (by norm_num) (by norm_num),
    by norm_num, (C7_fatigue_properties 3 0 (7/10)).2.2.2 (by norm_num)⟩

/-! ### LineupSelector on an empty candidate set (claim C4) -/

/-- C4 counterexample: with an empty set of valid lineups the selection
does not fail — it silently returns Python `None` (`.ok none`), never an
error. -/
theorem C4_counterexample :
    pick_best_lineup (fun _ => 0) [] [] [] 0 0 none none 0 0 none none = .ok none ∧
    ∀ e, (Except.ok none : Except SimErr (Option (List String × ℚ × ℝ))) ≠ .error e := by
  exact ⟨rfl, fun e h => by cases h⟩

/-- C4 (amended): for every invocation of `pick_best_lineup` with an empty
set of valid lineups, the function raises nothing and returns `None` (the
initial `best = None` default); it never returns an arbitrary lineup.  The
failure surfaces only in callers that unpack the `None` result. -/
theorem C4_empty_selection_returns_none (model : List ℝ → ℝ) (X_columns : List String)
    (rating_map : List (String × ℚ)) (is_home fatigue_alpha : ℚ)
    (minutes_played equity_target : Option (List (String × ℚ)))
    (equity_lambda overuse_lambda : ℚ) (max_minutes : Option (List (String × ℚ)))
    (opp_dummy_cols : Option (List String)) :
    pick_best_lineup model X_columns [] rating_map is_home fatigue_alpha
      minutes_played equity_target equity_lambda overuse_lambda max_minutes
      opp_dummy_cols = .ok none := rfl

/-! ### LineupEnumerator (claim C1) -/

/-- Total rating of a combination read off the rating map (missing players
count 0; the fallible sum below agrees whenever all members are present). -/
def ratingSum (rating_map : List (String × ℚ)) (c : List String) : ℚ :=
  (c.map (fun p => (List.lookup p rating_map).getD 0)).sum

theorem ratingSum_nil (rating_map : List (String × ℚ)) : ratingSum rating_map [] = 0 := rfl

theorem ratingSum_cons (rating_map : List (String × ℚ)) (p : String) (c : List String) :
    ratingSum rating_map (p :: c) = (List.lookup p rating_map).getD 0 + ratingSum rating_map c := by
  simp [ratingSum]

theorem ratingSumE_ok (rating_map : List (String × ℚ)) (l : List String)
    (hp : ∀ p ∈ l, (List.lookup p rating_map).isSome) :
    ∀ acc, ratingSumE rating_map l acc = .ok (acc + ratingSum rating_map l) := by
  induction l with
  | nil => intro acc; simp [ratingSumE, ratingSum_nil]
  | cons p ps ih =>
    intro acc
    obtain ⟨r, hr⟩ := Option.isSome_iff_exists.1 (hp p (List.mem_cons_self p ps))
    have ih' := ih (fun q hq => hp q (List.mem_cons_of_mem p hq))
    simp only [ratingSumE, hr, ih' (acc + r), ratingSum_cons, hr, Option.getD_some]
    congr 1
    ring

/-- Characterisation of the enumeration loop when every member of every
candidate combination has a rating. -/
theorem enumAux_ok (rating_map : List (String × ℚ)) (cap : ℚ) (combos : List (List String))
    (hp : ∀ c ∈ combos, ∀ p ∈ c, (List.lookup p rating_map).isSome) :
    ∀ acc, enumAux rating_map cap combos acc =
      .ok (acc ++ (combos.filter
          (fun c => decide (ratingSum rating_map c ≤ cap))).map
          (fun c => (c, ratingSum rating_map c))) := by
  induction combos with
  | nil => intro acc; simp [enumAux]
  | cons c cs ih =>
    intro acc
    have hc := ratingSumE_ok rating_map c (hp c (List.mem_cons_self c cs)) 0
    rw [zero_add] at hc
    have ih' := ih (fun d hd => hp d (List.mem_cons_of_mem c hd))
    by_cases hcap : ratingSum rating_map c ≤ cap
    · simp only [enumAux, hc, if_pos hcap, ih', List.filter_cons,
        decide_eq_true hcap, List.map_cons, List.cons_append, List.append_assoc]
      rfl
    · simp only [enumAux, hc, if_neg hcap, ih', List.filter_cons,
        decide_eq_false hcap]
      rfl

theorem enumerate_ok (roster : List String) (rating_map : List (String × ℚ)) (cap : ℚ)
    (hp : ∀ p ∈ roster, (List.lookup p rating_map).isSome) :
    enumerate_valid_lineups roster rating_map cap =
      .ok (((List.sublistsLen 4 roster).filter
          (fun c => decide (ratingSum rating_map c ≤ cap))).map
          (fun c => (c, ratingSum rating_map c))) := by
  rw [enumerate_valid_lineups,
    enumAux_ok rating_map cap _
      (fun c hc p hpc =>
        hp p ((List.mem_sublistsLen.1 hc).1.subset hpc)) []]
  rfl

/-- Independent count of the `k`-element combinations of `l` whose summed
rating (offset by `acc`) stays within the cap, by a pick/skip recursion
that never builds the combinations. -/
def countValid (rating_map : List (String × ℚ)) (cap : ℚ) : ℕ → List String → ℚ → ℕ
  | 0, _, acc => if acc ≤ cap then 1 else 0
  | _ + 1, [], _ => 0
  | k + 1, p :: rest, acc =>
    countValid rating_map cap k rest (acc + (List.lookup p rating_map).getD 0) +
      countValid rating_map cap (k + 1) rest acc

theorem countValid_eq (rating_map : List (String × ℚ)) (cap : ℚ) :
    ∀ (l : List String) (n : ℕ) (acc : ℚ),
      ((List.sublistsLen n l).filter
        (fun c => decide (acc + ratingSum rating_map c ≤ cap))).length =
      countValid rating_map cap n l acc := by
  intro l
  induction l with
  | nil =>
    intro n acc
    match n with
    | 0 =>
      rw [List.sublistsLen_zero, countValid]
      by_cases h : acc ≤ cap <;>
        simp [List.filter, ratingSum_nil, h]
    | n + 1 => simp [countValid]
  | cons p rest ih =>
    intro n acc
    match n with
    | 0 =>
      rw [List.sublistsLen_zero, countValid]
      by_cases h : acc ≤ cap <;>
        simp [List.filter, ratingSum_nil, h]
    | n + 1 =>
      rw [List.sublistsLen_succ_cons, List.filter_append, List.length_append,
        List.filter_map, List.length_map]
      have hpred : ((fun c => decide (acc + ratingSum rating_map c ≤ cap)) ∘ List.cons p)
          = (fun c => decide ((acc + (List.lookup p rating_map).getD 0) + ratingSum rating_map c ≤ cap)) := by
        funext c
        simp only [Function.comp, ratingSum_cons, add_assoc]
      rw [hpred, ih n (acc + (List.lookup p rating_map).getD 0), ih (n + 1) acc,
        countValid, Nat.add_comm]

/-- C1: for a duplicate-free roster fully covered by the rating lookup,
`enumerate_valid_lineups` returns exactly the 4-element combinations
(length-4 sublists) of the roster whose summed rating is within the cap,
each paired with that sum; every qualifying combination appears exactly
once (the combination list is duplicate-free), nothing else appears, and
the result length equals the count computed independently by the pick/skip
recursion `countValid`. -/
theorem C1_enumerate_valid_lineups_correct
    (roster : List String) (rating_map : List (String × ℚ)) (cap : ℚ)
    (hnd : roster.Nodup) (hp : ∀ p ∈ roster, (List.lookup p rating_map).isSome) :
    ∃ L, enumerate_valid_lineups roster rating_map cap = .ok L ∧
      (∀ x ∈ L, List.Sublist x.1 roster ∧ x.1.length = 4 ∧ x.1.Nodup ∧
        x.2 = ratingSum rating_map x.1 ∧ x.2 ≤ cap) ∧
      (∀ c, List.Sublist c roster → c.length = 4 → ratingSum rating_map c ≤ cap →
        (c, ratingSum rating_map c) ∈ L) ∧
      (L.map Prod.fst).Nodup ∧
      L.length = countValid rating_map cap 4 roster 0 := by
  have hfst : ((((List.sublistsLen 4 roster).filter
      (fun c => decide (ratingSum rating_map c ≤ cap))).map
      (fun c => (c, ratingSum rating_map c))).map Prod.fst)
      = ((List.sublistsLen 4 roster).filter
        (fun c => decide (ratingSum rating_map c ≤ cap))) := by
    rw [List.map_map]
    exact List.map_id _
  have hndf : (((List.sublistsLen 4 roster).filter
      (fun c => decide (ratingSum rating_map c ≤ cap)))).Nodup :=
    (List.nodup_sublistsLen 4 hnd).filter _
  refine ⟨_, enumerate_ok roster rating_map cap hp, ?_, ?_, ?_, ?_⟩
  · intro x hx
    obtain ⟨c, hc, rfl⟩ := List.mem_map.1 hx
    obtain ⟨hcs, hcap⟩ := List.mem_filter.1 hc
    obtain ⟨hsub, hlen⟩ := List.mem_sublistsLen.1 hcs
    exact ⟨hsub, hlen, hnd.sublist hsub, rfl, of_decide_eq_true hcap⟩
  · intro c hsub hlen hcap
    exact List.mem_map_of_mem _
      (List.mem_filter.2 ⟨List.mem_sublistsLen.2 ⟨hsub, hlen⟩, decide_eq_true hcap⟩)
  · rw [hfst]
    exact hndf
  · rw [List.length_map]
    have h0 := countValid_eq rating_map cap roster 4 0
    have hfun : (fun c => decide ((0 : ℚ) + ratingSum rating_map c ≤ cap))
        = (fun c => decide (ratingSum rating_map c ≤ cap)) := by
      funext c
      rw [zero_add]
    rw [hfun] at h0
    exact h0

/-- C1 witness: a 5-player roster with unit ratings under a cap of 4 —
the theorem applies and in particular the enumeration's length matches the
independent count. -/
theorem C1_witness :
    ∃ L, enumerate_valid_lineups ["a", "b", "c", "d", "e"]
        [("a", 1), ("b", 1), ("c", 1), ("d", 1), ("e", 1)] 4 = .ok L ∧
      L.length = countValid [("a", 1), ("b", 1), ("c", 1), ("d", 1), ("e", 1)] 4 4
        ["a", "b", "c", "d", "e"] 0 := by
  obtain ⟨L, h1, _, _, _, h6⟩ :=
    C1_enumerate_valid_lineups_correct ["a", "b", "c", "d", "e"]
      [("a", 1), ("b", 1), ("c", 1), ("d", 1), ("e", 1)] 4
      (by decide) (by decide)
  exact ⟨L, h1, h6⟩

/-! ### Missing-rating failures (claim C9) -/

theorem ratingSumE_ok_isSome (rating_map : List (String × ℚ)) :
    ∀ (l : List String) (acc t : ℚ), ratingSumE rating_map l acc = .ok t →
      ∀ p ∈ l, (List.lookup p rating_map).isSome := by
  intro l
  induction l with
  | nil => intro acc t _ p hp; simp at hp
  | cons p ps ih =>
    intro acc t hok q hq
    cases hlp : List.lookup p rating_map with
    | none => rw [ratingSumE, hlp] at hok; cases hok
    | some r =>
      rw [ratingSumE, hlp] at hok
      rcases List.mem_cons.1 hq with rfl | hqs
      · rw [hlp]; rfl
      · exact ih (acc + r) t hok q hqs

theorem ratingSumE_error_char (rating_map : List (String × ℚ)) :
    ∀ (l : List String) (acc : ℚ) (e : SimErr), ratingSumE rating_map l acc = .error e →
      ∃ q ∈ l, e = .missingRating q ∧ List.lookup q rating_map = none := by
  intro l
  induction l with
  | nil => intro acc e h; cases h
  | cons p ps ih =>
    intro acc e h
    cases hlp : List.lookup p rating_map with
    | none =>
      rw [ratingSumE, hlp] at h
      cases h
      exact ⟨p, List.mem_cons_self p ps, rfl, hlp⟩
    | some r =>
      rw [ratingSumE, hlp] at h
      obtain ⟨q, hq, he, hqn⟩ := ih (acc + r) e h
      exact ⟨q, List.mem_cons_of_mem p hq, he, hqn⟩

theorem ratingSumE_error_of_missing (rating_map : List (String × ℚ)) :
    ∀ (l : List String), (∃ p ∈ l, List.lookup p rating_map = none) →
      ∀ acc, ∃ q, q ∈ l ∧ List.lookup q rating_map = none ∧
        ratingSumE rating_map l acc = .error (.missingRating q) := by
  intro l
  induction l with
  | nil => rintro ⟨p, hp, _⟩; simp at hp
  | cons p ps ih =>
    rintro ⟨x, hx, hxn⟩ acc
    cases hlp : List.lookup p rating_map with
    | none =>
      refine ⟨p, List.mem_cons_self p ps, hlp, ?_⟩
      rw [ratingSumE, hlp]
    | some r =>
      have hxps : x ∈ ps := by
        rcases List.mem_cons.1 hx with rfl | h
        · rw [hlp] at hxn; cases hxn
        · exact h
      obtain ⟨q, hq, hqn, hres⟩ := ih ⟨x, hxps, hxn⟩ (acc + r)
      refine ⟨q, List.mem_cons_of_mem p hq, hqn, ?_⟩
      rw [ratingSumE, hlp]
      exact hres

theorem exists_sublistsLen_mem (p : String) :
    ∀ (l : List String) (n : ℕ), 1 ≤ n → n ≤ l.length → p ∈ l →
      ∃ c, c ∈ List.sublistsLen n l ∧ p ∈ c := by
  intro l
  induction l with
  | nil => intro n h1 hlen hp; simp at hp
  | cons a t ih =>
    intro n h1 hlen hp
    obtain ⟨m, rfl⟩ : ∃ m, n = m + 1 := ⟨n - 1, (Nat.succ_pred_eq_of_pos h1).symm⟩
    rcases List.mem_cons.1 hp with rfl | hpt
    · refine ⟨p :: t.take m, ?_, List.mem_cons_self _ _⟩
      apply List.mem_sublistsLen.2
      have hm : m ≤ t.length := by
        simpa using hlen
      exact ⟨List.Sublist.cons₂ p (List.take_sublist m t),
        by simp [List.length_take, Nat.min_eq_left hm]⟩
    · by_cases hm : m + 1 ≤ t.length
      · obtain ⟨c, hc, hpc⟩ := ih (m + 1) (Nat.le_add_left 1 m) hm hpt
        refine ⟨c, ?_, hpc⟩
        rw [List.sublistsLen_succ_cons]
        exact List.mem_append_left _ hc
      · have hlen' : t.length = m := by
          have := hlen
          simp at this
          omega
        refine ⟨a :: t, ?_, List.mem_cons_of_mem a hpt⟩
        apply List.mem_sublistsLen.2
        exact ⟨List.Sublist.refl _, by simp [hlen']⟩

theorem enumAux_error_of_missing (rating_map : List (String × ℚ)) (cap : ℚ) :
    ∀ (combos : List (List String)),
      (∃ c ∈ combos, ∃ q ∈ c, List.lookup q rating_map = none) →
      ∀ acc, ∃ q, List.lookup q rating_map = none ∧
        enumAux rating_map cap combos acc = .error (.missingRating q) := by
  intro combos
  induction combos with
  | nil => rintro ⟨c, hc, _⟩; simp at hc
  | cons c cs ih =>
    rintro ⟨d, hd, q0, hq0, hq0n⟩ acc
    cases hres : ratingSumE rating_map c 0 with
    | error e =>
      obtain ⟨q, _, he, hqn⟩ := ratingSumE_error_char rating_map c 0 e hres
      refine ⟨q, hqn, ?_⟩
      rw [enumAux, hres, he]
    | ok t =>
      have hdc : d ∈ cs := by
        rcases List.mem_cons.1 hd with rfl | h
        · have := ratingSumE_ok_isSome rating_map d 0 t hres q0 hq0
          rw [hq0n] at this
          cases this
        · exact h
      obtain ⟨q, hqn, hres'⟩ := ih ⟨d, hdc, q0, hq0, hq0n⟩
        (if t ≤ cap then acc ++ [(c, t)] else acc)
      refine ⟨q, hqn, ?_⟩
      rw [enumAux, hres]
      exact hres'

/-- C9 counterexample: a roster smaller than 4 containing a member with no
rating entry does not make enumeration fail — `itertools.combinations`
yields nothing, no rating is ever looked up, and the empty list is
returned successfully. -/
theorem C9_counterexample :
    List.lookup "x" ([] : List (String × ℚ)) = none ∧ ("x" : String) ∈ ["x"] ∧
    enumerate_valid_lineups ["x"] [] 8 = .ok [] ∧
    ∀ e, (Except.ok [] : Except SimErr (List (List String × ℚ))) ≠ .error e :=
  ⟨rfl, List.mem_cons_self "x" [], rfl, fun e h => by cases h⟩

/-- C9 (amended): a missing rating aborts enumeration with a lookup error
provided the roster has at least 4 members (so that some 4-combination
actually contains the missing player — with fewer members enumeration
succeeds vacuously); scoring a lineup with a member absent from the
rating lookup always fails with a lookup error. -/
theorem C9_missing_rating_failures :
    (∀ (roster : List String) (rating_map : List (String × ℚ)) (cap : ℚ) (p : String),
      4 ≤ roster.length → p ∈ roster → List.lookup p rating_map = none →
      ∃ q, List.lookup q rating_map = none ∧
        enumerate_valid_lineups roster rating_map cap = .error (.missingRating q)) ∧
    (∀ (model : List ℝ → ℝ) (X_columns lineup : List String)
      (rating_map : List (String × ℚ)) (is_home : ℚ) (opp_dummy_cols : Option (List String))
      (fatigue_alpha : ℚ) (minutes_played equity_target : Option (List (String × ℚ)))
      (equity_lambda overuse_lambda : ℚ) (max_minutes : Option (List (String × ℚ)))
      (p : String), p ∈ lineup → List.lookup p rating_map = none →
      ∃ q, List.lookup q rating_map = none ∧
        lineup_score_from_model model X_columns lineup rating_map is_home
          opp_dummy_cols fatigue_alpha minutes_played equity_target equity_lambda
          overuse_lambda max_minutes = .error (.missingRating q)) := by
  constructor
  · intro roster rating_map cap p h4 hp hnone
    obtain ⟨c, hc, hpc⟩ := exists_sublistsLen_mem p roster 4 (by norm_num) h4 hp
    obtain ⟨q, hqn, hres⟩ := enumAux_error_of_missing rating_map cap
      (List.sublistsLen 4 roster) ⟨c, hc, p, hpc, hnone⟩ []
    exact ⟨q, hqn, hres⟩
  · intro model X_columns lineup rating_map is_home opp_dummy_cols fatigue_alpha
      minutes_played equity_target equity_lambda overuse_lambda max_minutes p hp hnone
    obtain ⟨q, _, hqn, hres⟩ := ratingSumE_error_of_missing rating_map lineup
      ⟨p, hp, hnone⟩ 0
    refine ⟨q, hqn, ?_⟩
    rw [lineup_score_from_model, hres]

/-- C9 witness: a 4-player roster whose member `"d"` has no rating entry —
both enumeration and scoring fail with the lookup error. -/
theorem C9_witness :
    (∃ q, List.lookup q [("a", (1 : ℚ)), ("b", 1), ("c", 1)] = none ∧
      enumerate_valid_lineups ["a", "b", "c", "d"] [("a", 1), ("b", 1), ("c", 1)] 8
        = .error (.missingRating q)) ∧
    (∃ q, List.lookup q [("a", (1 : ℚ)), ("b", 1), ("c", 1)] = none ∧
      lineup_score_from_model (fun _ => 0) [] ["a", "b", "c", "d"]
        [("a", 1), ("b", 1), ("c", 1)] 0 none 0 none none 0 0 none
        = .error (.missingRating q)) :=
  ⟨C9_missing_rating_failures.1 ["a", "b", "c", "d"] [("a", 1), ("b", 1), ("c", 1)] 8 "d"
      (by decide) (by decide) (by decide),
    C9_missing_rating_failures.2 (fun _ => 0) [] ["a", "b", "c", "d"]
      [("a", 1), ("b", 1), ("c", 1)] 0 none 0 none none 0 0 none "d"
      (by decide) (by decide)⟩

/-! ### LineupScorer formula (claim C2) -/

/-- Equity penalty as the spec states it: the sum, over lineup members
with a defined equity target, of the absolute deviation of their current
minutes from that target. -/
def specEquityPen (minutes eqt : List (String × ℚ)) (lineup : List String) : ℚ :=
  ((lineup.filter (fun p => (List.lookup p eqt).isSome)).map
    (fun p => |dget minutes p - (List.lookup p eqt).getD 0|)).sum

/-- Overuse penalty as the spec states it: the sum, over lineup members
with a defined max-minutes entry, of `max(0, minutes - cap)`. -/
def specOverusePen (minutes mxm : List (String × ℚ)) (lineup : List String) : ℚ :=
  ((lineup.filter (fun p => (List.lookup p mxm).isSome)).map
    (fun p => max 0 (dget minutes p - (List.lookup p mxm).getD 0))).sum

theorem eqPen_foldl (minutes eqt : List (String × ℚ)) :
    ∀ (lineup : List String) (acc : ℚ),
      lineup.foldl (fun acc p =>
        match List.lookup p eqt with
        | some t => acc + |dget minutes p - t|
        | none => acc) acc = acc + specEquityPen minutes eqt lineup := by
  intro lineup
  induction lineup with
  | nil => intro acc; simp [specEquityPen]
  | cons p ps ih =>
    intro acc
    cases hl : List.lookup p eqt with
    | none =>
      rw [List.foldl_cons]
      simp only [hl]
      rw [ih acc]
      congr 1
      simp [specEquityPen, List.filter_cons, hl]
    | some t =>
      rw [List.foldl_cons]
      simp only [hl]
      rw [ih (acc + |dget minutes p - t|)]
      have : specEquityPen minutes eqt (p :: ps)
          = |dget minutes p - t| + specEquityPen minutes eqt ps := by
        simp [specEquityPen, List.filter_cons, hl]
      rw [this]
      ring

theorem ovPen_foldl (minutes mxm : List (String × ℚ)) :
    ∀ (lineup : List String) (acc : ℚ),
      lineup.foldl (fun acc p =>
        match List.lookup p mxm with
        | some mx => if dget minutes p - mx > 0 then acc + (dget minutes p - mx) else acc
        | none => acc) acc = acc + specOverusePen minutes mxm lineup := by
  intro lineup
  induction lineup with
  | nil => intro acc; simp [specOverusePen]
  | cons p ps ih =>
    intro acc
    cases hl : List.lookup p mxm with
    | none =>
      rw [List.foldl_cons]
      simp only [hl]
      rw [ih acc]
      congr 1
      simp [specOverusePen, List.filter_cons, hl]
    | some mx =>
      rw [List.foldl_cons]
      simp only [hl]
      have hspec : specOverusePen minutes mxm (p :: ps)
          = max 0 (dget minutes p - mx) + specOverusePen minutes mxm ps := by
        simp [specOverusePen, List.filter_cons, hl]
      by_cases hpos : dget minutes p - mx > 0
      · rw [if_pos hpos, ih (acc + (dget minutes p - mx)), hspec,
          max_eq_right hpos.le]
        ring
      · rw [if_neg hpos, ih acc, hspec, max_eq_left (by linarith [not_lt.1 hpos])]
        ring

/-- C2: for a 4-member lineup fully covered by the rating lookup, the
scorer returns exactly `base * fatigue_scale - equity_lambda * Σ|minutes -
target| - overuse_lambda * Σ max(0, minutes - cap)`, where `base` is the
model's prediction on the constructed feature vector and `fatigue_scale`
is the mean of the four members' fatigue factors at their current
minutes. -/
theorem C2_lineup_score_formula (model : List ℝ → ℝ) (X_columns lineup : List String)
    (rating_map : List (String × ℚ)) (is_home : ℚ) (opp_dummy_cols : Option (List String))
    (fatigue_alpha : ℚ) (minutes eqt : List (String × ℚ))
    (equity_lambda overuse_lambda : ℚ) (mxm : List (String × ℚ))
    (h4 : lineup.length = 4)
    (hp : ∀ p ∈ lineup, (List.lookup p rating_map).isSome) :
    lineup_score_from_model model X_columns lineup rating_map is_home opp_dummy_cols
      fatigue_alpha (some minutes) (some eqt) equity_lambda overuse_lambda (some mxm)
    = .ok (model (X_columns.map (featureRow lineup (ratingSum rating_map lineup)
          is_home (opp_dummy_cols.getD [])))
        * ((lineup.map (fun p =>
            fatigue_factor ((dget minutes p : ℚ) : ℝ) (fatigue_alpha : ℝ))).sum / 4)
        - (equity_lambda : ℝ) * ((specEquityPen minutes eqt lineup : ℚ) : ℝ)
        - (overuse_lambda : ℝ) * ((specOverusePen minutes mxm lineup : ℚ) : ℝ)) := by
  have hsum := ratingSumE_ok rating_map lineup hp 0
  rw [zero_add] at hsum
  simp only [lineup_score_from_model, hsum, Option.getD_some]
  rw [eqPen_foldl, ovPen_foldl, zero_add, zero_add]
  congr 1
  rw [List.length_map, h4]
  push_cast
  ring

/-- C2 witness: the formula at a concrete lineup, ratings, minutes state,
targets and weights. -/
theorem C2_witness :
    lineup_score_from_model (fun _ => 0) ["a", "total_rating"] ["a", "b", "c", "d"]
      [("a", 1), ("b", 1), ("c", 1), ("d", 1)] 0 none 1
      (some [("a", 3)]) (some [("b", 2)]) 2 3 (some [("c", 1)])
    = .ok ((fun _ => (0 : ℝ)) (["a", "total_rating"].map
          (featureRow ["a", "b", "c", "d"]
            (ratingSum [("a", 1), ("b", 1), ("c", 1), ("d", 1)] ["a", "b", "c", "d"]) 0 []))
        * ((["a", "b", "c", "d"].map (fun p =>
            fatigue_factor ((dget [("a", 3)] p : ℚ) : ℝ) (((1 : ℚ) : ℝ)))).sum / 4)
        - ((2 : ℚ) : ℝ) * ((specEquityPen [("a", 3)] [("b", 2)] ["a", "b", "c", "d"] : ℚ) : ℝ)
        - ((3 : ℚ) : ℝ) * ((specOverusePen [("a", 3)] [("c", 1)] ["a", "b", "c", "d"] : ℚ) : ℝ)) :=
  C2_lineup_score_formula (fun _ => 0) ["a", "total_rating"] ["a", "b", "c", "d"]
    [("a", 1), ("b", 1), ("c", 1), ("d", 1)] 0 none 1 [("a", 3)] [("b", 2)] 2 3 [("c", 1)]
    (by decide) (by decide)

/-! ### Scorer default handling (claim C10) -/

/-- The scorer reads the minutes dict only through `dget` at lineup
members. -/
theorem score_minutes_ext (model : List ℝ → ℝ) (X_columns lineup : List String)
    (rating_map : List (String × ℚ)) (is_home : ℚ) (opp_dummy_cols : Option (List String))
    (fatigue_alpha : ℚ) (m₁ m₂ : List (String × ℚ))
    (eqtO mxmO : Option (List (String × ℚ))) (equity_lambda overuse_lambda : ℚ)
    (h : ∀ p ∈ lineup, dget m₁ p = dget m₂ p) :
    lineup_score_from_model model X_columns lineup rating_map is_home opp_dummy_cols
      fatigue_alpha (some m₁) eqtO equity_lambda overuse_lambda mxmO
    = lineup_score_from_model model X_columns lineup rating_map is_home opp_dummy_cols
      fatigue_alpha (some m₂) eqtO equity_lambda overuse_lambda mxmO := by
  cases hres : ratingSumE rating_map lineup 0 with
  | error e => simp only [lineup_score_from_model, hres]
  | ok total =>
    simp only [lineup_score_from_model, hres, Option.getD_some]
    rw [eqPen_foldl, eqPen_foldl, ovPen_foldl, ovPen_foldl]
    have hf : lineup.map (fun p => fatigue_factor ((dget m₁ p : ℚ) : ℝ) (fatigue_alpha : ℝ))
        = lineup.map (fun p => fatigue_factor ((dget m₂ p : ℚ) : ℝ) (fatigue_alpha : ℝ)) := by
      apply List.map_congr_left
      intro p hp
      rw [h p hp]
    have heq : specEquityPen m₁ (eqtO.getD []) lineup = specEquityPen m₂ (eqtO.getD []) lineup := by
      apply congrArg List.sum
      apply List.map_congr_left
      intro p hp
      rw [h p (List.mem_of_mem_filter hp)]
    have hov : specOverusePen m₁ (mxmO.getD []) lineup = specOverusePen m₂ (mxmO.getD []) lineup := by
      apply congrArg List.sum
      apply List.map_congr_left
      intro p hp
      rw [h p (List.mem_of_mem_filter hp)]
    rw [hf, heq, hov]

theorem specEquityPen_nil (minutes : List (String × ℚ)) (lineup : List String) :
    specEquityPen minutes [] lineup = 0 := by
  have : lineup.filter (fun p => (List.lookup p ([] : List (String × ℚ))).isSome) = [] := by
    induction lineup with
    | nil => rfl
    | cons a t ih =>
      rw [List.filter_cons]
      simp only [List.lookup, Option.isSome_none, Bool.false_eq_true, if_false]
      exact ih
  simp [specEquityPen, this]

theorem specOverusePen_nil (minutes : List (String × ℚ)) (lineup : List String) :
    specOverusePen minutes [] lineup = 0 := by
  have : lineup.filter (fun p => (List.lookup p ([] : List (String × ℚ))).isSome) = [] := by
    induction lineup with
    | nil => rfl
    | cons a t ih =>
      rw [List.filter_cons]
      simp only [List.lookup, Option.isSome_none, Bool.false_eq_true, if_false]
      exact ih
  simp [specOverusePen, this]

/-- C10: a lineup member absent from the minutes dict contributes `0.0`
minutes to the fatigue, equity and overuse terms (scoring agrees with the
dict explicitly extended by a zero entry); an omitted minutes dict is the
all-zero dict over the lineup; an omitted equity-target or max-minutes
dict behaves as an empty dict, contributing zero penalty (the result does
not depend on the corresponding weight); and no error is raised as long
as every member has a rating. -/
theorem C10_score_defaults (model : List ℝ → ℝ) (X_columns lineup : List String)
    (rating_map : List (String × ℚ)) (is_home : ℚ) (opp_dummy_cols : Option (List String))
    (fatigue_alpha : ℚ) (minutes eqt mxm : List (String × ℚ))
    (equity_lambda overuse_lambda : ℚ) (p₀ : String)
    (hmem : p₀ ∈ lineup) (hnone : List.lookup p₀ minutes = none)
    (hp : ∀ p ∈ lineup, (List.lookup p rating_map).isSome) :
    (lineup_score_from_model model X_columns lineup rating_map is_home opp_dummy_cols
        fatigue_alpha (some minutes) (some eqt) equity_lambda overuse_lambda (some mxm)
      = lineup_score_from_model model X_columns lineup rating_map is_home opp_dummy_cols
        fatigue_alpha (some (dset minutes p₀ 0)) (some eqt) equity_lambda overuse_lambda
        (some mxm)) ∧
    (lineup_score_from_model model X_columns lineup rating_map is_home opp_dummy_cols
        fatigue_alpha none (some eqt) equity_lambda overuse_lambda (some mxm)
      = lineup_score_from_model model X_columns lineup rating_map is_home opp_dummy_cols
        fatigue_alpha (some (lineup.map fun p => (p, (0 : ℚ)))) (some eqt) equity_lambda
        overuse_lambda (some mxm)) ∧
    (∀ l₁ l₂ : ℚ,
      lineup_score_from_model model X_columns lineup rating_map is_home opp_dummy_cols
        fatigue_alpha (some minutes) none l₁ overuse_lambda (some mxm)
      = lineup_score_from_model model X_columns lineup rating_map is_home opp_dummy_cols
        fatigue_alpha (some minutes) none l₂ overuse_lambda (some mxm)) ∧
    (∀ l₁ l₂ : ℚ,
      lineup_score_from_model model X_columns lineup rating_map is_home opp_dummy_cols
        fatigue_alpha (some minutes) (some eqt) equity_lambda l₁ none
      = lineup_score_from_model model X_columns lineup rating_map is_home opp_dummy_cols
        fatigue_alpha (some minutes) (some eqt) equity_lambda l₂ none) ∧
    (∃ v, lineup_score_from_model model X_columns lineup rating_map is_home opp_dummy_cols
        fatigue_alpha (some minutes) (some eqt) equity_lambda overuse_lambda (some mxm)
      = .ok v) := by
  refine ⟨?_, rfl, ?_, ?_, ?_⟩
  · apply score_minutes_ext
    intro p hpl
    by_cases hpp : p = p₀
    · subst hpp
      rw [dget_dset_self, dget, hnone]
      rfl
    · rw [dget_dset_ne minutes p₀ p 0 hpp]
  · intro l₁ l₂
    cases hres : ratingSumE rating_map lineup 0 with
    | error e => simp only [lineup_score_from_model, hres]
    | ok total =>
      simp only [lineup_score_from_model, hres, Option.getD_some, Option.getD_none]
      rw [eqPen_foldl, specEquityPen_nil]
      norm_num
  · intro l₁ l₂
    cases hres : ratingSumE rating_map lineup 0 with
    | error e => simp only [lineup_score_from_model, hres]
    | ok total =>
      simp only [lineup_score_from_model, hres, Option.getD_some, Option.getD_none]
      rw [ovPen_foldl, specOverusePen_nil]
      norm_num
  · have hsum := ratingSumE_ok rating_map lineup hp 0
    rw [zero_add] at hsum
    simp only [lineup_score_from_model, hsum]
    exact ⟨_, rfl⟩

/-- C10 witness: member `"a"` of a concrete lineup has no entry in the
minutes dict; the defaults behave as proved. -/
theorem C10_witness :
    lineup_score_from_model (fun _ => 0) [] ["a", "b", "c", "d"]
      [("a", 1), ("b", 1), ("c", 1), ("d", 1)] 0 none 1
      (some [("b", 5)]) (some [("b", 2)]) 2 3 (some [("c", 1)])
    = lineup_score_from_model (fun _ => 0) [] ["a", "b", "c", "d"]
      [("a", 1), ("b", 1), ("c", 1), ("d", 1)] 0 none 1
      (some (dset [("b", 5)] "a" 0)) (some [("b", 2)]) 2 3 (some [("c", 1)]) :=
  (C10_score_defaults (fun _ => 0) [] ["a", "b", "c", "d"]
    [("a", 1), ("b", 1), ("c", 1), ("d", 1)] 0 none 1 [("b", 5)] [("b", 2)] [("c", 1)]
    2 3 "a" (by decide) (by decide) (by decide)).1

/-! ### LineupSelector order and tie-breaking (claim C8) -/

/-- The selection loop under a pure score function: the state is
`(best, best_score)` and only a strictly greater score replaces the
incumbent. -/
noncomputable def runPick (s : List String × ℚ → ℝ) :
    List (List String × ℚ) → Option (List String × ℚ × ℝ) × ℝ →
      Option (List String × ℚ × ℝ) × ℝ
  | [], st => st
  | x :: rest, st =>
    runPick s rest (if s x > st.2 then (some (x.1, x.2, s x), s x) else st)

theorem pickAux_eq_runPick (model : List ℝ → ℝ) (X_columns : List String)
    (rating_map : List (String × ℚ)) (is_home fatigue_alpha : ℚ)
    (minutes_played equity_target : Option (List (String × ℚ)))
    (equity_lambda overuse_lambda : ℚ) (max_minutes : Option (List (String × ℚ)))
    (opp_dummy_cols : Option (List String)) (s : List String × ℚ → ℝ) :
    ∀ (l : List (List String × ℚ)),
      (∀ x ∈ l, lineup_score_from_model model X_columns x.1 rating_map is_home
        opp_dummy_cols fatigue_alpha minutes_played equity_target equity_lambda
        overuse_lambda max_minutes = .ok (s x)) →
      ∀ st, pickAux model X_columns rating_map is_home fatigue_alpha minutes_played
        equity_target equity_lambda overuse_lambda max_minutes opp_dummy_cols l st
        = .ok (runPick s l st) := by
  intro l
  induction l with
  | nil => intro _ st; rfl
  | cons x rest ih =>
    intro hs st
    obtain ⟨lineup, total⟩ := x
    have hx := hs (lineup, total) (List.mem_cons_self _ _)
    rw [pickAux, hx]
    exact ih (fun y hy => hs y (List.mem_cons_of_mem _ hy)) _

theorem runPick_no_update (s : List String × ℚ → ℝ) :
    ∀ (l : List (List String × ℚ)) (st : Option (List String × ℚ × ℝ) × ℝ),
      (∀ x ∈ l, s x ≤ st.2) → runPick s l st = st := by
  intro l
  induction l with
  | nil => intro st _; rfl
  | cons x rest ih =>
    intro st h
    rw [runPick, if_neg (not_lt.2 (h x (List.mem_cons_self _ _)))]
    exact ih st (fun y hy => h y (List.mem_cons_of_mem _ hy))

theorem runPick_first_max (s : List String × ℚ → ℝ) :
    ∀ (l : List (List String × ℚ)) (st : Option (List String × ℚ × ℝ) × ℝ),
      (∃ x ∈ l, st.2 < s x) →
      ∃ i, ∃ hi : i < l.length,
        runPick s l st = (some ((l.get ⟨i, hi⟩).1, (l.get ⟨i, hi⟩).2, s (l.get ⟨i, hi⟩)),
          s (l.get ⟨i, hi⟩)) ∧
        (∀ j, ∀ hj : j < l.length, s (l.get ⟨j, hj⟩) ≤ s (l.get ⟨i, hi⟩)) ∧
        (∀ j, ∀ hj : j < l.length, j < i → s (l.get ⟨j, hj⟩) < s (l.get ⟨i, hi⟩)) ∧
        st.2 < s (l.get ⟨i, hi⟩) := by
  intro l
  induction l with
  | nil => rintro st ⟨x, hx, _⟩; simp at hx
  | cons x rest ih =>
    rintro st ⟨x₀, hx₀, hgt⟩
    by_cases hx : st.2 < s x
    · rw [runPick, if_pos hx]
      by_cases hrest : ∃ y ∈ rest, s x < s y
      · obtain ⟨i', hi', hrun, hmax, hfirst, hgt'⟩ :=
          ih (some (x.1, x.2, s x), s x) hrest
        refine ⟨i' + 1, Nat.succ_lt_succ hi', hrun, ?_, ?_, ?_⟩
        · intro j hj
          match j with
          | 0 => exact le_of_lt hgt'
          | j' + 1 => exact hmax j' (Nat.lt_of_succ_lt_succ hj)
        · intro j hj hji
          match j with
          | 0 => exact hgt'
          | j' + 1 => exact hfirst j' (Nat.lt_of_succ_lt_succ hj) (Nat.lt_of_succ_lt_succ hji)
        · exact lt_trans hx hgt'
      · push_neg at hrest
        rw [runPick_no_update s rest _ hrest]
        refine ⟨0, Nat.succ_pos _, rfl, ?_, ?_, hx⟩
        · intro j hj
          match j with
          | 0 => exact le_rfl
          | j' + 1 => exact hrest _ (List.get_mem rest _ _)
        · intro j hj hji
          exact absurd hji (Nat.not_lt_zero j)
    · rw [runPick, if_neg hx]
      have hx₀r : x₀ ∈ rest := by
        rcases List.mem_cons.1 hx₀ with rfl | h
        · exact absurd hgt hx
        · exact h
      obtain ⟨i', hi', hrun, hmax, hfirst, hgt'⟩ := ih st ⟨x₀, hx₀r, hgt⟩
      refine ⟨i' + 1, Nat.succ_lt_succ hi', hrun, ?_, ?_, hgt'⟩
      · intro j hj
        match j with
        | 0 => exact le_of_lt (lt_of_le_of_lt (not_lt.1 hx) hgt')
        | j' + 1 => exact hmax j' (Nat.lt_of_succ_lt_succ hj)
      · intro j hj hji
        match j with
        | 0 => exact lt_of_le_of_lt (not_lt.1 hx) hgt'
        | j' + 1 => exact hfirst j' (Nat.lt_of_succ_lt_succ hj) (Nat.lt_of_succ_lt_succ hji)

/-- Fatigue factor at zero minutes with zero decay is exactly 1. -/
theorem fatigue_zero_zero : fatigue_factor 0 0 (7 / 10) = 1 := by
  rw [fatigue_factor]
  norm_num [Real.exp_zero, max_def]

/-- Concrete scorer evaluation used by witnesses: a constant model on the
default snapshot scores every lineup at the model's constant. -/
theorem scoreEval_const (v : ℝ) :
    lineup_score_from_model (fun _ => v) [] ["a", "b", "c", "d"]
      [("a", 1), ("b", 1), ("c", 1), ("d", 1)] 0 none 0 none none 0 0 none = .ok v := by
  simp [lineup_score_from_model, ratingSumE, List.lookup, dget, fatigue_zero_zero]
  norm_num [fatigue_zero_zero]

/-- C8 counterexample: a nonempty candidate list on which every adjusted
score is below the `-1e18` sentinel — selection returns `None`, not the
first lineup achieving the maximum score. -/
theorem C8_counterexample :
    pick_best_lineup (fun _ => -(4 * 10 ^ 18)) [] [(["a", "b", "c", "d"], 4)]
      [("a", 1), ("b", 1), ("c", 1), ("d", 1)] 0 0 none none 0 0 none none = .ok none ∧
    ∀ x : List String × ℚ × ℝ,
      (Except.ok none : Except SimErr (Option (List String × ℚ × ℝ))) ≠ .ok (some x) := by
  constructor
  · rw [pick_best_lineup, pickAux, scoreEval_const (-(4 * 10 ^ 18))]
    norm_num [pickAux]
  · intro x h
    simp at h

/-- C8 (amended): provided every candidate scores successfully and some
candidate's score exceeds the `-1e18` sentinel, `pick_best_lineup`
returns the first candidate (in enumeration order) achieving the strict
maximum adjusted score: every candidate scores no higher, and every
earlier candidate scores strictly lower, so a later tie never replaces
the incumbent.  Selection is a pure function of the candidate order and
the scoring snapshot, so repeated invocations agree. -/
theorem C8_first_strict_max (model : List ℝ → ℝ) (X_columns : List String)
    (valid_lineups : List (List String × ℚ)) (rating_map : List (String × ℚ))
    (is_home fatigue_alpha : ℚ)
    (minutes_played equity_target : Option (List (String × ℚ)))
    (equity_lambda overuse_lambda : ℚ) (max_minutes : Option (List (String × ℚ)))
    (opp_dummy_cols : Option (List String)) (s : List String × ℚ → ℝ)
    (hs : ∀ x ∈ valid_lineups, lineup_score_from_model model X_columns x.1 rating_map
      is_home opp_dummy_cols fatigue_alpha minutes_played equity_target equity_lambda
      overuse_lambda max_minutes = .ok (s x))
    (hmax : ∃ x ∈ valid_lineups, -(10 ^ 18 : ℝ) < s x) :
    (∃ i, ∃ hi : i < valid_lineups.length,
      pick_best_lineup model X_columns valid_lineups rating_map is_home fatigue_alpha
        minutes_played equity_target equity_lambda overuse_lambda max_minutes
        opp_dummy_cols
        = .ok (some ((valid_lineups.get ⟨i, hi⟩).1, (valid_lineups.get ⟨i, hi⟩).2,
            s (valid_lineups.get ⟨i, hi⟩))) ∧
      (∀ j, ∀ hj : j < valid_lineups.length,
        s (valid_lineups.get ⟨j, hj⟩) ≤ s (valid_lineups.get ⟨i, hi⟩)) ∧
      (∀ j, ∀ hj : j < valid_lineups.length, j < i →
        s (valid_lineups.get ⟨j, hj⟩) < s (valid_lineups.get ⟨i, hi⟩))) ∧
    pick_best_lineup model X_columns valid_lineups rating_map is_home fatigue_alpha
      minutes_played equity_target equity_lambda overuse_lambda max_minutes opp_dummy_cols
    = pick_best_lineup model X_columns valid_lineups rating_map is_home fatigue_alpha
      minutes_played equity_target equity_lambda overuse_lambda max_minutes
      opp_dummy_cols := by
  refine ⟨?_, rfl⟩
  obtain ⟨i, hi, hrun, hmax2, hfirst, _⟩ :=
    runPick_first_max s valid_lineups (none, -(10 ^ 18 : ℝ)) hmax
  refine ⟨i, hi, ?_, hmax2, hfirst⟩
  rw [pick_best_lineup,
    pickAux_eq_runPick model X_columns rating_map is_home fatigue_alpha minutes_played
      equity_target equity_lambda overuse_lambda max_minutes opp_dummy_cols s
      valid_lineups hs (none, -(10 ^ 18 : ℝ)),
    hrun]

/-- C8 witness: a single candidate scored at 0 by a constant model is
selected as the first strict maximum. -/
theorem C8_witness :
    pick_best_lineup (fun _ => 0) [] [(["a", "b", "c", "d"], 4)]
      [("a", 1), ("b", 1), ("c", 1), ("d", 1)] 0 0 none none 0 0 none none
    = .ok (some (["a", "b", "c", "d"], 4, 0)) := by
  obtain ⟨⟨i, hi, hres, _, _⟩, _⟩ :=
    C8_first_strict_max (fun _ => 0) [] [(["a", "b", "c", "d"], 4)]
      [("a", 1), ("b", 1), ("c", 1), ("d", 1)] 0 0 none none 0 0 none none
      (fun _ => 0)
      (fun x hx => by
        rcases List.mem_singleton.1 hx with rfl
        exact scoreEval_const 0)
      ⟨(["a", "b", "c", "d"], 4), List.mem_singleton.2 rfl, by norm_num⟩
  have hi1 : i < 1 := by simpa using hi
  have hi0 : i = 0 := by omega
  subst hi0
  exact hres

/-! ### RotationSimulator support lemmas -/

theorem enumAux_ok_mem (rating_map : List (String × ℚ)) (cap : ℚ) :
    ∀ (combos : List (List String)) (acc L : List (List String × ℚ)),
      enumAux rating_map cap combos acc = .ok L →
      ∀ x ∈ L, x ∈ acc ∨ x.1 ∈ combos := by
  intro combos
  induction combos with
  | nil =>
    intro acc L h x hx
    cases h
    exact Or.inl hx
  | cons c cs ih =>
    intro acc L h x hx
    rw [enumAux] at h
    cases hres : ratingSumE rating_map c 0 with
    | error e => rw [hres] at h; cases h
    | ok t =>
      rw [hres] at h
      rcases ih _ L h x hx with hacc | hcs
      · by_cases hcap : t ≤ cap
        · rw [if_pos hcap] at hacc
          rcases List.mem_append.1 hacc with h1 | h1
          · exact Or.inl h1
          · rcases List.mem_singleton.1 h1 with rfl
            exact Or.inr (List.mem_cons_self _ _)
        · rw [if_neg hcap] at hacc
          exact Or.inl hacc
      · exact Or.inr (List.mem_cons_of_mem _ hcs)

theorem enumerate_ok_mem (roster : List String) (rating_map : List (String × ℚ)) (cap : ℚ)
    (L : List (List String × ℚ)) (h : enumerate_valid_lineups roster rating_map cap = .ok L) :
    ∀ x ∈ L, x.1 ∈ List.sublistsLen 4 roster := by
  intro x hx
  rcases enumAux_ok_mem rating_map cap _ [] L h x hx with h1 | h1
  · simp at h1
  · exact h1

theorem pickAux_ok_mem (model : List ℝ → ℝ) (X_columns : List String)
    (rating_map : List (String × ℚ)) (is_home fatigue_alpha : ℚ)
    (minutes_played equity_target : Option (List (String × ℚ)))
    (equity_lambda overuse_lambda : ℚ) (max_minutes : Option (List (String × ℚ)))
    (opp_dummy_cols : Option (List String)) :
    ∀ (l : List (List String × ℚ)) (st r : Option (List String × ℚ × ℝ) × ℝ),
      pickAux model X_columns rating_map is_home fatigue_alpha minutes_played
        equity_target equity_lambda overuse_lambda max_minutes opp_dummy_cols l st
        = .ok r →
      r.1 = st.1 ∨ ∃ x ∈ l, ∃ sc, r.1 = some (x.1, x.2, sc) := by
  intro l
  induction l with
  | nil =>
    intro st r h
    cases h
    exact Or.inl rfl
  | cons x rest ih =>
    intro st r h
    obtain ⟨lineup, total⟩ := x
    rw [pickAux] at h
    cases hsc : lineup_score_from_model model X_columns lineup rating_map is_home
        opp_dummy_cols fatigue_alpha minutes_played equity_target equity_lambda
        overuse_lambda max_minutes with
    | error e => rw [hsc] at h; cases h
    | ok score =>
      rw [hsc] at h
      rcases ih _ r h with hst | hrest
      · by_cases hgt : score > st.2
        · rw [if_pos hgt] at hst
          exact Or.inr ⟨(lineup, total), List.mem_cons_self _ _, score, hst⟩
        · rw [if_neg hgt] at hst
          exact Or.inl hst
      · obtain ⟨y, hy, sc, hsc'⟩ := hrest
        exact Or.inr ⟨y, List.mem_cons_of_mem _ hy, sc, hsc'⟩

theorem pick_best_ok_mem (model : List ℝ → ℝ) (X_columns : List String)
    (valid_lineups : List (List String × ℚ)) (rating_map : List (String × ℚ))
    (is_home fatigue_alpha : ℚ)
    (minutes_played equity_target : Option (List (String × ℚ)))
    (equity_lambda overuse_lambda : ℚ) (max_minutes : Option (List (String × ℚ)))
    (opp_dummy_cols : Option (List String)) (lineup : List String) (total : ℚ) (score : ℝ)
    (h : pick_best_lineup model X_columns valid_lineups rating_map is_home fatigue_alpha
      minutes_played equity_target equity_lambda overuse_lambda max_minutes opp_dummy_cols
      = .ok (some (lineup, total, score))) :
    (lineup, total) ∈ valid_lineups := by
  rw [pick_best_lineup] at h
  cases haux : pickAux model X_columns rating_map is_home fatigue_alpha minutes_played
      equity_target equity_lambda overuse_lambda max_minutes opp_dummy_cols
      valid_lineups (none, -(10 ^ 18 : ℝ)) with
  | error e => rw [haux] at h; cases h
  | ok r =>
    rw [haux] at h
    have hr : r.1 = some (lineup, total, score) := by
      injection h
    rcases pickAux_ok_mem model X_columns rating_map is_home fatigue_alpha minutes_played
        equity_target equity_lambda overuse_lambda max_minutes opp_dummy_cols
        valid_lineups _ r haux with h1 | h1
    · rw [h1] at hr
      cases hr
    · obtain ⟨x, hx, sc, hsc⟩ := h1
      obtain ⟨xl, xt⟩ := x
      rw [hsc] at hr
      injection hr with hr2
      injection hr2 with ha hb
      injection hb with hb1 hb2
      subst ha
      subst hb1
      exact hx

theorem credit_keys (bm : ℚ) :
    ∀ (lineup : List String) (m : List (String × ℚ)),
      (∀ p ∈ lineup, p ∈ m.map Prod.fst) →
      (lineup.foldl (fun m q => dset m q (dget m q + bm)) m).map Prod.fst
        = m.map Prod.fst := by
  intro lineup
  induction lineup with
  | nil => intro m _; rfl
  | cons p ps ih =>
    intro m hmem
    rw [List.foldl_cons]
    have hp := hmem p (List.mem_cons_self _ _)
    have hkeys := dset_map_fst m p (dget m p + bm) hp
    rw [ih (dset m p (dget m p + bm)) (fun q hq => by
      rw [hkeys]
      exact hmem q (List.mem_cons_of_mem _ hq)), hkeys]

theorem credit_dget (bm : ℚ) :
    ∀ (lineup : List String) (m : List (String × ℚ)) (q : String), lineup.Nodup →
      dget (lineup.foldl (fun m q => dset m q (dget m q + bm)) m) q
        = dget m q + if q ∈ lineup then bm else 0 := by
  intro lineup
  induction lineup with
  | nil =>
    intro m q _
    simp
  | cons p ps ih =>
    intro m q hnd
    rw [List.nodup_cons] at hnd
    rw [List.foldl_cons, ih _ q hnd.2]
    by_cases hqp : q = p
    · subst hqp
      rw [dget_dset_self, if_neg hnd.1, if_pos (List.mem_cons_self _ _)]
      ring
    · rw [dget_dset_ne m p q _ hqp]
      by_cases hqps : q ∈ ps
      · rw [if_pos hqps, if_pos (List.mem_cons_of_mem _ hqps)]
      · rw [if_neg hqps, if_neg (by
          intro hmem
          rcases List.mem_cons.1 hmem with h | h
          · exact hqp h
          · exact hqps h)]

theorem credit_sum (bm : ℚ) :
    ∀ (lineup : List String) (m : List (String × ℚ)), lineup.Nodup →
      (∀ p ∈ lineup, p ∈ m.map Prod.fst) → (m.map Prod.fst).Nodup →
      ((lineup.foldl (fun m q => dset m q (dget m q + bm)) m).map Prod.snd).sum
        = (m.map Prod.snd).sum + (lineup.length : ℚ) * bm := by
  intro lineup
  induction lineup with
  | nil => intro m _ _ _; simp
  | cons p ps ih =>
    intro m hnd hmem hkeysnd
    rw [List.nodup_cons] at hnd
    rw [List.foldl_cons]
    have hp := hmem p (List.mem_cons_self _ _)
    have hkeys := dset_map_fst m p (dget m p + bm) hp
    rw [ih (dset m p (dget m p + bm)) hnd.2
      (fun q hq => by rw [hkeys]; exact hmem q (List.mem_cons_of_mem _ hq))
      (by rw [hkeys]; exact hkeysnd),
      dset_map_snd_sum m p (dget m p + bm) hp hkeysnd, List.length_cons]
    push_cast
    ring

theorem simLoop_append (model : List ℝ → ℝ) (X_columns : List String)
    (rating_map : List (String × ℚ)) (is_home fatigue_alpha : ℚ)
    (target : List (String × ℚ)) (equity_lambda overuse_lambda : ℚ)
    (max_minutes : List (String × ℚ)) (block_minutes game_minutes : ℚ)
    (valid_lineups : List (List String × ℚ)) :
    ∀ (l₁ l₂ : List ℕ) (st : SimState),
      simLoop model X_columns rating_map is_home fatigue_alpha target equity_lambda
        overuse_lambda max_minutes block_minutes game_minutes valid_lineups (l₁ ++ l₂) st
      = match simLoop model X_columns rating_map is_home fatigue_alpha target
          equity_lambda overuse_lambda max_minutes block_minutes game_minutes
          valid_lineups l₁ st with
        | .error e => .error e
        | .ok st' => simLoop model X_columns rating_map is_home fatigue_alpha target
            equity_lambda overuse_lambda max_minutes block_minutes game_minutes
            valid_lineups l₂ st' := by
  intro l₁
  induction l₁ with
  | nil => intro l₂ st; rfl
  | cons k ks ih =>
    intro l₂ st
    rw [List.cons_append, simLoop, simLoop]
    cases hstep : simStep model X_columns rating_map is_home fatigue_alpha target
        equity_lambda overuse_lambda max_minutes block_minutes game_minutes
        valid_lineups st k with
    | error e => rfl
    | ok st' => exact ih l₂ st'

/-- Number of schedule rows whose selected lineup contains `p`. -/
def countRows (p : String) (rows : List Row) : ℕ :=
  (rows.filter (fun r => decide (p ∈ r.lineup))).length

theorem countRows_append (p : String) (r₁ r₂ : List Row) :
    countRows p (r₁ ++ r₂) = countRows p r₁ + countRows p r₂ := by
  rw [countRows, countRows, countRows, List.filter_append, List.length_append]

theorem countRows_single (p : String) (r : Row) :
    countRows p [r] = if p ∈ r.lineup then 1 else 0 := by
  rw [countRows, List.filter_cons]
  by_cases h : p ∈ r.lineup
  · rw [decide_eq_true h, if_pos h]
    rfl
  · rw [decide_eq_false h, if_neg h]
    rfl

/-- Inversion of one simulation step: a successful step selected some
lineup from the valid set, credited each of its members the full
`block_minutes`, and appended the schedule row with the clamped end. -/
theorem simStep_ok (model : List ℝ → ℝ) (X_columns : List String)
    (rating_map : List (String × ℚ)) (is_home fatigue_alpha : ℚ)
    (target : List (String × ℚ)) (equity_lambda overuse_lambda : ℚ)
    (max_minutes : List (String × ℚ)) (bm gm : ℚ)
    (valid_lineups : List (List String × ℚ)) (st : SimState) (k : ℕ) (st' : SimState)
    (h : simStep model X_columns rating_map is_home fatigue_alpha target equity_lambda
      overuse_lambda max_minutes bm gm valid_lineups st k = .ok st') :
    ∃ lineup total score,
      pick_best_lineup model X_columns valid_lineups rating_map is_home fatigue_alpha
        (some st.minutes) (some target) equity_lambda overuse_lambda (some max_minutes)
        none = .ok (some (lineup, total, score)) ∧
      st' = SimState.mk (st.t + bm)
        (lineup.foldl (fun m p => dset m p (dget m p + bm)) st.minutes)
        (st.rows ++ [Row.mk (k + 1) st.t (min gm (st.t + bm)) lineup total score]) := by
  rw [simStep] at h
  cases hpick : pick_best_lineup model X_columns valid_lineups rating_map is_home
      fatigue_alpha (some st.minutes) (some target) equity_lambda overuse_lambda
      (some max_minutes) none with
  | error e =>
    rw [hpick] at h
    cases show (Except.error e : Except SimErr SimState) = .ok st' from h
  | ok res =>
    rw [hpick] at h
    cases res with
    | none =>
      cases show (Except.error SimErr.noneUnpack : Except SimErr SimState) = .ok st' from h
    | some trip =>
      obtain ⟨lineup, total, score⟩ := trip
      refine ⟨lineup, total, score, rfl, ?_⟩
      have h' : Except.ok (SimState.mk (st.t + bm)
          (lineup.foldl (fun m p => dset m p (dget m p + bm)) st.minutes)
          (st.rows ++ [Row.mk (k + 1) st.t (min gm (st.t + bm)) lineup total score]))
          = Except.ok st' := h
      injection h' with h''
      exact h''.symm

/-- Invariant of the simulation loop after `k` completed blocks. -/
def SimInv (available : List String) (bm gm : ℚ) (k : ℕ) (st : SimState) : Prop :=
  st.minutes.map Prod.fst = available ∧
  st.rows.length = k ∧
  st.t = bm * k ∧
  (∀ p, dget st.minutes p = bm * (countRows p st.rows : ℚ)) ∧
  ((st.minutes.map Prod.snd).sum = 4 * bm * (k : ℚ)) ∧
  (∀ r ∈ st.rows, r.lineup ∈ List.sublistsLen 4 available) ∧
  st.rows.map Row.start_min = (List.range k).map (fun i : ℕ => bm * (i : ℚ)) ∧
  st.rows.map Row.end_min = (List.range k).map (fun i : ℕ => min gm (bm * (i : ℚ) + bm))

theorem simLoop_inv (model : List ℝ → ℝ) (X_columns : List String)
    (rating_map : List (String × ℚ)) (is_home fatigue_alpha : ℚ)
    (target : List (String × ℚ)) (equity_lambda overuse_lambda : ℚ)
    (max_minutes : List (String × ℚ)) (bm gm : ℚ)
    (valid_lineups : List (List String × ℚ)) (available : List String)
    (hnd : available.Nodup)
    (hvalid : ∀ x ∈ valid_lineups, x.1 ∈ List.sublistsLen 4 available) :
    ∀ (k : ℕ) (st : SimState),
      simLoop model X_columns rating_map is_home fatigue_alpha target equity_lambda
        overuse_lambda max_minutes bm gm valid_lineups (List.range k)
        ⟨0, available.map (fun p => (p, (0 : ℚ))), []⟩ = .ok st →
      SimInv available bm gm k st := by
  intro k
  induction k with
  | zero =>
    intro st h
    rw [List.range_zero, simLoop] at h
    have hst : st = ⟨0, available.map (fun p => (p, (0 : ℚ))), []⟩ := by
      injection h with h'
      exact h'.symm
    subst hst
    refine ⟨?_, rfl, by norm_num, ?_, ?_, by simp, by simp, by simp⟩
    · rw [List.map_map]
      have hc : (Prod.fst ∘ fun p : String => (p, (0 : ℚ))) = id := rfl
      rw [hc, List.map_id]
    · intro p
      rw [dget_map_zero]
      simp [countRows]
    · rw [List.map_map]
      have hc : (Prod.snd ∘ fun p : String => (p, (0 : ℚ))) = fun _ => (0 : ℚ) := rfl
      rw [hc]
      simp
  | succ k ih =>
    intro st h
    rw [List.range_succ, simLoop_append] at h
    cases hrun : simLoop model X_columns rating_map is_home fatigue_alpha target
        equity_lambda overuse_lambda max_minutes bm gm valid_lineups (List.range k)
        ⟨0, available.map (fun p => (p, (0 : ℚ))), []⟩ with
    | error e =>
      rw [hrun] at h
      cases show (Except.error e : Except SimErr SimState) = .ok st from h
    | ok st' =>
      rw [hrun] at h
      have h2 : simLoop model X_columns rating_map is_home fatigue_alpha target
          equity_lambda overuse_lambda max_minutes bm gm valid_lineups [k] st'
          = .ok st := h
      rw [simLoop] at h2
      cases hstep : simStep model X_columns rating_map is_home fatigue_alpha target
          equity_lambda overuse_lambda max_minutes bm gm valid_lineups st' k with
      | error e =>
        rw [hstep] at h2
        cases show (Except.error e : Except SimErr SimState) = .ok st from h2
      | ok st'' =>
        rw [hstep] at h2
        have hst : st'' = st :=
          Except.ok.inj (show (Except.ok st'' : Except SimErr SimState) = .ok st from h2)
        subst hst
        obtain ⟨hkeys, hlen, ht, hdget, hsum, hrows, hstart, hend⟩ := ih st' hrun
        obtain ⟨lineup, total, score, hpick, hst''⟩ := simStep_ok model X_columns
          rating_map is_home fatigue_alpha target equity_lambda overuse_lambda
          max_minutes bm gm valid_lineups st' k _ hstep
        subst hst''
        have hmemv := pick_best_ok_mem model X_columns valid_lineups rating_map
          is_home fatigue_alpha (some st'.minutes) (some target) equity_lambda
          overuse_lambda (some max_minutes) none lineup total score hpick
        have hsubl := hvalid _ hmemv
        obtain ⟨hsub, hlen4⟩ := List.mem_sublistsLen.1 hsubl
        have hlnodup : lineup.Nodup := hnd.sublist hsub
        have hlmem : ∀ p ∈ lineup, p ∈ available := fun p hp => hsub.subset hp
        have hlmem' : ∀ p ∈ lineup, p ∈ st'.minutes.map Prod.fst := by
          rw [hkeys]
          exact hlmem
        refine ⟨?_, ?_, ?_, ?_, ?_, ?_, ?_, ?_⟩
        · rw [credit_keys bm lineup st'.minutes hlmem', hkeys]
        · rw [List.length_append, hlen]
          rfl
        · rw [ht]
          push_cast
          ring
        · intro p
          rw [credit_dget bm lineup st'.minutes p hlnodup, hdget p,
            countRows_append, countRows_single]
          by_cases hp : p ∈ lineup
          · rw [if_pos hp, if_pos hp]
            push_cast
            ring
          · rw [if_neg hp, if_neg hp]
            push_cast
            ring
        · rw [credit_sum bm lineup st'.minutes hlnodup hlmem'
            (by rw [hkeys]; exact hnd), hsum, hlen4]
          push_cast
          ring
        · intro r hr
          rcases List.mem_append.1 hr with h1 | h1
          · exact hrows r h1
          · rcases List.mem_singleton.1 h1 with rfl
            exact hsubl
        · simp only [List.map_append, hstart, List.range_succ, ht, List.map_cons,
            List.map_nil]
        · simp only [List.map_append, hend, List.range_succ, ht, List.map_cons,
            List.map_nil]

/-! ### Insufficient roster (claim C5) -/

/-- C5 counterexample: with only 3 eligible players the simulation does
reach enumeration (which returns no lineups) and then fails on the first
block with the `None`-unpacking error — not with an
`InsufficientRosterError` raised before enumeration (the source defines no
such check). -/
theorem C5_counterexample :
    simulate_rotation_plan (fun _ => 0) [] ["a", "b", "c"] [("a", 1), ("b", 1), ("c", 1)]
      4 4 8 [] 0 0 0 32 0 1 = .error SimErr.noneUnpack ∧
    SimErr.noneUnpack ≠ SimErr.insufficientRoster := by
  constructor
  · simp [simulate_rotation_plan, enumerate_valid_lineups, enumAux, nBlocks,
      simLoop, simStep, pick_best_lineup, pickAux, List.sublistsLen_of_length_lt]
  · decide

/-- Unfolding of the simulator once enumeration is known to succeed. -/
theorem simulate_unfold (model : List ℝ → ℝ) (X_columns : List String)
    (roster : List String) (rating_map : List (String × ℚ))
    (game_minutes block_minutes max_points : ℚ) (injured : List String)
    (is_home fatigue_alpha min_minutes_per_player max_minutes_per_player
      equity_lambda overuse_lambda : ℚ) (valids : List (List String × ℚ))
    (henum : enumerate_valid_lineups (roster.filter (fun p => decide (p ∉ injured)))
      rating_map max_points = .ok valids) :
    simulate_rotation_plan model X_columns roster rating_map game_minutes block_minutes
      max_points injured is_home fatigue_alpha min_minutes_per_player
      max_minutes_per_player equity_lambda overuse_lambda
    = match simLoop model X_columns rating_map is_home fatigue_alpha
        (if 0 < (roster.filter (fun p => decide (p ∉ injured))).length then
          (roster.filter (fun p => decide (p ∉ injured))).map (fun p =>
            (p, max min_minutes_per_player (game_minutes * 4 /
              (((roster.filter (fun p => decide (p ∉ injured))).length : ℚ)))))
        else [])
        equity_lambda overuse_lambda
        ((roster.filter (fun p => decide (p ∉ injured))).map
          (fun p => (p, max_minutes_per_player)))
        block_minutes game_minutes valids
        (List.range (nBlocks game_minutes block_minutes))
        ⟨0, (roster.filter (fun p => decide (p ∉ injured))).map (fun p => (p, (0 : ℚ))), []⟩ with
      | .error e => .error e
      | .ok st => .ok (st.rows, st.minutes) := by
  unfold simulate_rotation_plan
  simp only []
  rw [henum]

/-- The block loop with no valid lineups fails immediately on its first
iteration: selection returns `None` and unpacking it raises. -/
theorem simLoop_nil_valids (model : List ℝ → ℝ) (X_columns : List String)
    (rating_map : List (String × ℚ)) (is_home fatigue_alpha : ℚ)
    (target : List (String × ℚ)) (equity_lambda overuse_lambda : ℚ)
    (max_minutes : List (String × ℚ)) (bm gm : ℚ) (n : ℕ) (ks : List ℕ) (st : SimState) :
    simLoop model X_columns rating_map is_home fatigue_alpha target equity_lambda
      overuse_lambda max_minutes bm gm [] (n :: ks) st = .error SimErr.noneUnpack := rfl

/-- C5 (amended): with fewer than 4 eligible players (and positive game
and block lengths) `simulate_rotation_plan` does fail, but not before
enumeration and not with a dedicated insufficient-roster error:
enumeration runs and returns the empty set, the first block's selection
returns `None`, and unpacking it raises the error. -/
theorem C5_insufficient_roster_behavior (model : List ℝ → ℝ) (X_columns : List String)
    (roster : List String) (rating_map : List (String × ℚ))
    (game_minutes block_minutes max_points : ℚ) (injured : List String)
    (is_home fatigue_alpha min_minutes_per_player max_minutes_per_player
      equity_lambda overuse_lambda : ℚ)
    (h3 : (roster.filter (fun p => decide (p ∉ injured))).length < 4)
    (hgm : 0 < game_minutes) (hbm : 0 < block_minutes) :
    simulate_rotation_plan model X_columns roster rating_map game_minutes block_minutes
      max_points injured is_home fatigue_alpha min_minutes_per_player
      max_minutes_per_player equity_lambda overuse_lambda
    = .error SimErr.noneUnpack := by
  have hsub : List.sublistsLen 4 (roster.filter (fun p => decide (p ∉ injured))) = [] :=
    List.sublistsLen_of_length_lt h3
  have henum : enumerate_valid_lineups (roster.filter (fun p => decide (p ∉ injured)))
      rating_map max_points = .ok [] := by
    rw [enumerate_valid_lineups, hsub]
    rfl
  have hnb : 0 < nBlocks game_minutes block_minutes := by
    rw [nBlocks]
    have h1 : (0 : ℤ) < ⌈game_minutes / block_minutes⌉ :=
      Int.ceil_pos.2 (div_pos hgm hbm)
    omega
  obtain ⟨n, hn⟩ : ∃ n, nBlocks game_minutes block_minutes = n + 1 :=
    ⟨nBlocks game_minutes block_minutes - 1, by omega⟩
  rw [simulate_unfold model X_columns roster rating_map game_minutes block_minutes
    max_points injured is_home fatigue_alpha min_minutes_per_player
    max_minutes_per_player equity_lambda overuse_lambda [] henum, hn,
    List.range_succ_eq_map, simLoop_nil_valids]

/-- C5 witness: the amended behavior at a concrete 3-eligible-player
roster. -/
theorem C5_witness :
    simulate_rotation_plan (fun _ => 0) [] ["a", "b", "c"] [("a", 1), ("b", 1), ("c", 1)]
      4 2 8 [] 0 0 0 32 0 1 = .error SimErr.noneUnpack :=
  C5_insufficient_roster_behavior (fun _ => 0) [] ["a", "b", "c"]
    [("a", 1), ("b", 1), ("c", 1)] 4 2 8 [] 0 0 0 32 0 1
    (by decide) (by norm_num) (by norm_num)

/-! ### Rotation-simulation minutes invariant (claim C3) -/

/-- C3: at every state reachable after `k` completed blocks of the
simulation loop, each player's recorded minutes equal `block_minutes`
times the number of those blocks whose selected lineup contained the
player (for any equity targets, caps and weights), and the total over the
minutes dict is exactly `4 * block_minutes * k`; consequently a completed
run records `4 * block_minutes * n_blocks` total minutes. -/
theorem C3_minutes_invariant (model : List ℝ → ℝ) (X_columns : List String)
    (roster : List String) (rating_map : List (String × ℚ))
    (game_minutes block_minutes max_points : ℚ) (injured : List String)
    (is_home fatigue_alpha min_minutes_per_player max_minutes_per_player
      equity_lambda overuse_lambda : ℚ)
    (hnd : roster.Nodup) :
    (∀ (target max_minutes : List (String × ℚ)) (eqL ovL : ℚ)
      (valid_lineups : List (List String × ℚ)) (k : ℕ) (st : SimState),
      enumerate_valid_lineups (roster.filter (fun p => decide (p ∉ injured)))
        rating_map max_points = .ok valid_lineups →
      simLoop model X_columns rating_map is_home fatigue_alpha target eqL ovL
        max_minutes block_minutes game_minutes valid_lineups (List.range k)
        ⟨0, (roster.filter (fun p => decide (p ∉ injured))).map (fun p => (p, (0 : ℚ))), []⟩
        = .ok st →
      st.rows.length = k ∧
      (∀ p, dget st.minutes p = block_minutes * (countRows p st.rows : ℚ)) ∧
      ((st.minutes.map Prod.snd).sum = 4 * block_minutes * (k : ℚ))) ∧
    (∀ (rows : List Row) (minutes : List (String × ℚ)),
      simulate_rotation_plan model X_columns roster rating_map game_minutes
        block_minutes max_points injured is_home fatigue_alpha min_minutes_per_player
        max_minutes_per_player equity_lambda overuse_lambda = .ok (rows, minutes) →
      (∀ p, dget minutes p = block_minutes * (countRows p rows : ℚ)) ∧
      ((minutes.map Prod.snd).sum
        = 4 * block_minutes * ((nBlocks game_minutes block_minutes : ℕ) : ℚ))) := by
  have havnd : (roster.filter (fun p => decide (p ∉ injured))).Nodup := hnd.filter _
  constructor
  · intro target max_minutes eqL ovL valid_lineups k st henum hloop
    obtain ⟨_, hlen, _, hdget, hsum, _, _, _⟩ :=
      simLoop_inv model X_columns rating_map is_home fatigue_alpha target eqL ovL
        max_minutes block_minutes game_minutes valid_lineups _ havnd
        (enumerate_ok_mem _ rating_map max_points valid_lineups henum) k st hloop
    exact ⟨hlen, hdget, hsum⟩
  · intro rows minutes hok
    cases henum : enumerate_valid_lineups (roster.filter (fun p => decide (p ∉ injured)))
        rating_map max_points with
    | error e =>
      rw [simulate_rotation_plan] at hok
      rw [henum] at hok
      cases show (Except.error e : Except SimErr (List Row × List (String × ℚ)))
        = .ok (rows, minutes) from hok
    | ok valids =>
      rw [simulate_unfold model X_columns roster rating_map game_minutes block_minutes
        max_points injured is_home fatigue_alpha min_minutes_per_player
        max_minutes_per_player equity_lambda overuse_lambda valids henum] at hok
      cases hloop : simLoop model X_columns rating_map is_home fatigue_alpha
          (if 0 < (roster.filter (fun p => decide (p ∉ injured))).length then
            (roster.filter (fun p => decide (p ∉ injured))).map (fun p =>
              (p, max min_minutes_per_player (game_minutes * 4 /
                (((roster.filter (fun p => decide (p ∉ injured))).length : ℚ)))))
          else [])
          equity_lambda overuse_lambda
          ((roster.filter (fun p => decide (p ∉ injured))).map
            (fun p => (p, max_minutes_per_player)))
          block_minutes game_minutes valids
          (List.range (nBlocks game_minutes block_minutes))
          ⟨0, (roster.filter (fun p => decide (p ∉ injured))).map (fun p => (p, (0 : ℚ))), []⟩ with
      | error e =>
        rw [hloop] at hok
        cases show (Except.error e : Except SimErr (List Row × List (String × ℚ)))
          = .ok (rows, minutes) from hok
      | ok stf =>
        rw [hloop] at hok
        have hpair : (stf.rows, stf.minutes) = (rows, minutes) :=
          Except.ok.inj (show (Except.ok (stf.rows, stf.minutes) :
            Except SimErr (List Row × List (String × ℚ))) = .ok (rows, minutes) from hok)
        have hrows : stf.rows = rows := congrArg Prod.fst hpair
        have hmin : stf.minutes = minutes := congrArg Prod.snd hpair
        obtain ⟨_, hlen, _, hdget, hsum, _, _, _⟩ :=
          simLoop_inv model X_columns rating_map is_home fatigue_alpha _ equity_lambda
            overuse_lambda _ block_minutes game_minutes valids _ havnd
            (enumerate_ok_mem _ rating_map max_points valids henum)
            (nBlocks game_minutes block_minutes) stf hloop
        rw [← hrows, ← hmin]
        exact ⟨hdget, hsum⟩

/-- Concrete zero-length run used by the C3 witness: with
`game_minutes = 0` there are no blocks and the returned minutes dict is
all zeros. -/
theorem simulate_zero_blocks :
    simulate_rotation_plan (fun _ => 0) [] ["a", "b", "c", "d"]
      [("a", 1), ("b", 1), ("c", 1), ("d", 1)] 0 4 8 [] 0 0 0 32 0 1
      = .ok ([], [("a", 0), ("b", 0), ("c", 0), ("d", 0)]) := by
  have henum : enumerate_valid_lineups
      (["a", "b", "c", "d"].filter (fun p => decide (p ∉ ([] : List String))))
      [("a", 1), ("b", 1), ("c", 1), ("d", 1)] 8
      = .ok [(["a", "b", "c", "d"], 4)] := by
    simp [enumerate_valid_lineups, enumAux, ratingSumE, List.lookup, List.filter]
    norm_num
  rw [simulate_unfold (fun _ => 0) [] ["a", "b", "c", "d"]
    [("a", 1), ("b", 1), ("c", 1), ("d", 1)] 0 4 8 [] 0 0 0 32 0 1
    [(["a", "b", "c", "d"], 4)] henum]
  have hnb : nBlocks 0 4 = 0 := by norm_num [nBlocks]
  rw [hnb, List.range_zero, simLoop]
  simp [List.filter]

/-- C3 witness: the completed-run conclusion at the concrete zero-block
run — the recorded total equals `4 * block_minutes * n_blocks`. -/
theorem C3_witness :
    (∀ p, dget [("a", 0), ("b", 0), ("c", 0), ("d", 0)] p
      = 4 * (countRows p [] : ℚ)) ∧
    (([("a", (0 : ℚ)), ("b", 0), ("c", 0), ("d", 0)].map Prod.snd).sum
      = 4 * 4 * ((nBlocks 0 4 : ℕ) : ℚ)) :=
  (C3_minutes_invariant (fun _ => 0) [] ["a", "b", "c", "d"]
    [("a", 1), ("b", 1), ("c", 1), ("d", 1)] 0 4 8 [] 0 0 0 32 0 1
    (by decide)).2 [] [("a", 0), ("b", 0), ("c", 0), ("d", 0)] simulate_zero_blocks

/-! ### Truncated final block (claim C6) -/

/-- C6: when `game_minutes` is not an exact multiple of `block_minutes`
(and both are positive), a successful simulation's final schedule entry
has its end clamped to `game_minutes` even though its unclamped end
`start + block_minutes` exceeds `game_minutes`; every member of the final
lineup is still credited the full block (minutes equal `block_minutes`
times the count of blocks containing the player, final block included),
the total credited equals `4 * block_minutes * ceil(game_minutes /
block_minutes)`, and that total strictly exceeds `4 * game_minutes`. -/
theorem C6_truncated_final_block (model : List ℝ → ℝ) (X_columns : List String)
    (roster : List String) (rating_map : List (String × ℚ))
    (game_minutes block_minutes max_points : ℚ) (injured : List String)
    (is_home fatigue_alpha min_minutes_per_player max_minutes_per_player
      equity_lambda overuse_lambda : ℚ) (rows : List Row) (minutes : List (String × ℚ))
    (hnd : roster.Nodup) (hgm : 0 < game_minutes) (hbm : 0 < block_minutes)
    (hnm : ¬ ∃ z : ℤ, game_minutes = z * block_minutes)
    (hok : simulate_rotation_plan model X_columns roster rating_map game_minutes
      block_minutes max_points injured is_home fatigue_alpha min_minutes_per_player
      max_minutes_per_player equity_lambda overuse_lambda = .ok (rows, minutes)) :
    ∃ last, rows.getLast? = some last ∧
      last.end_min = game_minutes ∧
      game_minutes < last.start_min + block_minutes ∧
      (∀ p ∈ last.lineup, dget minutes p
        = block_minutes * (countRows p rows : ℚ)) ∧
      ((minutes.map Prod.snd).sum
        = 4 * block_minutes * ((nBlocks game_minutes block_minutes : ℕ) : ℚ)) ∧
      4 * game_minutes
        < 4 * block_minutes * ((nBlocks game_minutes block_minutes : ℕ) : ℚ) := by
  have havnd : (roster.filter (fun p => decide (p ∉ injured))).Nodup := hnd.filter _
  -- arithmetic facts about the block count
  have hceil : (0 : ℤ) < ⌈game_minutes / block_minutes⌉ :=
    Int.ceil_pos.2 (div_pos hgm hbm)
  have hn1 : 1 ≤ nBlocks game_minutes block_minutes := by
    rw [nBlocks]
    omega
  have hcast : ((nBlocks game_minutes block_minutes : ℕ) : ℚ)
      = ((⌈game_minutes / block_minutes⌉ : ℤ) : ℚ) := by
    rw [nBlocks]
    exact_mod_cast Int.toNat_of_nonneg hceil.le
  have hle : game_minutes
      ≤ block_minutes * ((nBlocks game_minutes block_minutes : ℕ) : ℚ) := by
    rw [hcast]
    have h1 : game_minutes / block_minutes ≤ ((⌈game_minutes / block_minutes⌉ : ℤ) : ℚ) :=
      Int.le_ceil _
    have h2 := (div_le_iff₀ hbm).1 h1
    linarith
  have hlt : game_minutes
      < block_minutes * ((nBlocks game_minutes block_minutes : ℕ) : ℚ) := by
    rcases lt_or_eq_of_le hle with h | h
    · exact h
    · exfalso
      apply hnm
      refine ⟨(nBlocks game_minutes block_minutes : ℤ), ?_⟩
      push_cast
      linarith
  -- unfold the successful run and read off the invariant
  cases henum : enumerate_valid_lineups (roster.filter (fun p => decide (p ∉ injured)))
      rating_map max_points with
  | error e =>
    rw [simulate_rotation_plan] at hok
    rw [henum] at hok
    cases show (Except.error e : Except SimErr (List Row × List (String × ℚ)))
      = .ok (rows, minutes) from hok
  | ok valids =>
    rw [simulate_unfold model X_columns roster rating_map game_minutes block_minutes
      max_points injured is_home fatigue_alpha min_minutes_per_player
      max_minutes_per_player equity_lambda overuse_lambda valids henum] at hok
    cases hloop : simLoop model X_columns rating_map is_home fatigue_alpha
        (if 0 < (roster.filter (fun p => decide (p ∉ injured))).length then
          (roster.filter (fun p => decide (p ∉ injured))).map (fun p =>
            (p, max min_minutes_per_player (game_minutes * 4 /
              (((roster.filter (fun p => decide (p ∉ injured))).length : ℚ)))))
        else [])
        equity_lambda overuse_lambda
        ((roster.filter (fun p => decide (p ∉ injured))).map
          (fun p => (p, max_minutes_per_player)))
        block_minutes game_minutes valids
        (List.range (nBlocks game_minutes block_minutes))
        ⟨0, (roster.filter (fun p => decide (p ∉ injured))).map (fun p => (p, (0 : ℚ))), []⟩ with
    | error e =>
      rw [hloop] at hok
      cases show (Except.error e : Except SimErr (List Row × List (String × ℚ)))
        = .ok (rows, minutes) from hok
    | ok stf =>
      rw [hloop] at hok
      have hpair : (stf.rows, stf.minutes) = (rows, minutes) :=
        Except.ok.inj (show (Except.ok (stf.rows, stf.minutes) :
          Except SimErr (List Row × List (String × ℚ))) = .ok (rows, minutes) from hok)
      have hrows : stf.rows = rows := congrArg Prod.fst hpair
      have hmin : stf.minutes = minutes := congrArg Prod.snd hpair
      obtain ⟨_, hlen, _, hdget, hsum, _, hstart, hend⟩ :=
        simLoop_inv model X_columns rating_map is_home fatigue_alpha _ equity_lambda
          overuse_lambda _ block_minutes game_minutes valids _ havnd
          (enumerate_ok_mem _ rating_map max_points valids henum)
          (nBlocks game_minutes block_minutes) stf hloop
      have hlenr : rows.length = nBlocks game_minutes block_minutes := by
        rw [← hrows]
        exact hlen
      have hnenil : rows ≠ [] := by
        intro hnil
        rw [hnil] at hlenr
        simp at hlenr
        omega
      have hrange : ∀ n : ℕ, 1 ≤ n → (List.range n).getLast? = some (n - 1) := by
        intro n hn
        obtain ⟨m, hm⟩ : ∃ m, n = m + 1 := ⟨n - 1, by omega⟩
        subst hm
        rw [List.range_succ, List.getLast?_concat]
        congr 1
      have hc1 : ((nBlocks game_minutes block_minutes - 1 : ℕ) : ℚ)
          = ((nBlocks game_minutes block_minutes : ℕ) : ℚ) - 1 := by
        push_cast [Nat.cast_sub hn1]
        ring
      refine ⟨rows.getLast hnenil, List.getLast?_eq_getLast_of_ne_nil hnenil, ?_, ?_, ?_, ?_, ?_⟩
      · -- clamped end of the last row
        have h1 : (rows.map Row.end_min).getLast?
            = ((List.range (nBlocks game_minutes block_minutes)).map
              (fun i : ℕ => min game_minutes (block_minutes * (i : ℚ) + block_minutes))).getLast? := by
          rw [← hrows, hend]
        rw [List.getLast?_map, List.getLast?_map,
          List.getLast?_eq_getLast_of_ne_nil hnenil, hrange _ hn1] at h1
        simp only [Option.map_some'] at h1
        have h3 := Option.some.inj h1
        rw [h3, hc1]
        have heq : block_minutes * (((nBlocks game_minutes block_minutes : ℕ) : ℚ) - 1)
            + block_minutes
            = block_minutes * ((nBlocks game_minutes block_minutes : ℕ) : ℚ) := by ring
        rw [heq]
        exact min_eq_left hlt.le
      · -- the unclamped end would exceed game_minutes
        have h1 : (rows.map Row.start_min).getLast?
            = ((List.range (nBlocks game_minutes block_minutes)).map
              (fun i : ℕ => block_minutes * (i : ℚ))).getLast? := by
          rw [← hrows, hstart]
        rw [List.getLast?_map, List.getLast?_map,
          List.getLast?_eq_getLast_of_ne_nil hnenil, hrange _ hn1] at h1
        simp only [Option.map_some'] at h1
        have h3 := Option.some.inj h1
        rw [h3, hc1]
        linarith
      · intro p _
        rw [← hmin, ← hrows]
        exact hdget p
      · rw [← hmin]
        exact hsum
      · linarith

/-- Scorer evaluation used by the C6 witness: with a constant-zero model
and zero penalty weights the adjusted score of the full lineup is 0,
whatever the minutes state and targets. -/
theorem scoreEval_zero_lambda (minutes target mxm : List (String × ℚ)) :
    lineup_score_from_model (fun _ => 0) [] ["a", "b", "c", "d"]
      [("a", 1), ("b", 1), ("c", 1), ("d", 1)] 0 none 0 (some minutes) (some target)
      0 0 (some mxm) = .ok 0 := by
  have hsum : ratingSumE [("a", (1 : ℚ)), ("b", 1), ("c", 1), ("d", 1)]
      ["a", "b", "c", "d"] 0 = .ok 4 := by
    simp [ratingSumE, List.lookup]
    norm_num
  simp only [lineup_score_from_model, hsum, Option.getD_some]
  norm_num

/-- Selection evaluation used by the C6 witness. -/
theorem pickEval_zero_lambda (minutes target mxm : List (String × ℚ)) :
    pick_best_lineup (fun _ => 0) [] [(["a", "b", "c", "d"], 4)]
      [("a", 1), ("b", 1), ("c", 1), ("d", 1)] 0 0 (some minutes) (some target)
      0 0 (some mxm) none = .ok (some (["a", "b", "c", "d"], 4, 0)) := by
  rw [pick_best_lineup, pickAux, scoreEval_zero_lambda]
  norm_num [pickAux]

/-- A concrete truncated run: 2 game minutes in 4-minute blocks is one
block; its displayed end is clamped to 2 while all four players are
credited 4 minutes. -/
theorem simulate_one_block :
    simulate_rotation_plan (fun _ => 0) [] ["a", "b", "c", "d"]
      [("a", 1), ("b", 1), ("c", 1), ("d", 1)] 2 4 8 [] 0 0 0 32 0 0
    = .ok ([Row.mk 1 0 2 ["a", "b", "c", "d"] 4 0],
        [("a", 4), ("b", 4), ("c", 4), ("d", 4)]) := by
  have henum : enumerate_valid_lineups
      (["a", "b", "c", "d"].filter (fun p => decide (p ∉ ([] : List String))))
      [("a", 1), ("b", 1), ("c", 1), ("d", 1)] 8
      = .ok [(["a", "b", "c", "d"], 4)] := by
    simp [enumerate_valid_lineups, enumAux, ratingSumE, List.lookup, List.filter]
    norm_num
  rw [simulate_unfold (fun _ => 0) [] ["a", "b", "c", "d"]
    [("a", 1), ("b", 1), ("c", 1), ("d", 1)] 2 4 8 [] 0 0 0 32 0 0
    [(["a", "b", "c", "d"], 4)] henum]
  have hnb : nBlocks 2 4 = 1 := by
    rw [nBlocks, show (2 : ℚ) / 4 = 1 / 2 by norm_num,
      show (⌈(1 : ℚ) / 2⌉ : ℤ) = 1 by rw [Int.ceil_eq_iff]; norm_num]
    rfl
  rw [hnb, show List.range 1 = [0] from rfl, simLoop, simStep, pickEval_zero_lambda]
  norm_num [simLoop, dset, dget, List.lookup, List.filter, min_def,
    show ("a" == "a") = true from by decide, show ("b" == "a") = false from by decide,
    show ("b" == "b") = true from by decide, show ("c" == "a") = false from by decide,
    show ("c" == "b") = false from by decide, show ("c" == "c") = true from by decide,
    show ("d" == "a") = false from by decide, show ("d" == "b") = false from by decide,
    show ("d" == "c") = false from by decide, show ("d" == "d") = true from by decide]
  decide

/-- C6 witness: the truncated-final-block conclusions at the concrete
one-block run (2 game minutes, 4-minute blocks). -/
theorem C6_witness :
    ∃ last, [Row.mk 1 0 2 ["a", "b", "c", "d"] 4 0].getLast? = some last ∧
      last.end_min = 2 ∧
      (2 : ℚ) < last.start_min + 4 ∧
      (∀ p ∈ last.lineup, dget [("a", 4), ("b", 4), ("c", 4), ("d", 4)] p
        = 4 * (countRows p [Row.mk 1 0 2 ["a", "b", "c", "d"] 4 0] : ℚ)) ∧
      (([("a", (4 : ℚ)), ("b", 4), ("c", 4), ("d", 4)].map Prod.snd).sum
        = 4 * 4 * ((nBlocks 2 4 : ℕ) : ℚ)) ∧
      4 * (2 : ℚ) < 4 * 4 * ((nBlocks 2 4 : ℕ) : ℚ) :=
  C6_truncated_final_block (fun _ => 0) [] ["a", "b", "c", "d"]
    [("a", 1), ("b", 1), ("c", 1), ("d", 1)] 2 4 8 [] 0 0 0 32 0 0
    [Row.mk 1 0 2 ["a", "b", "c", "d"] 4 0] [("a", 4), ("b", 4), ("c", 4), ("d", 4)]
    (by decide) (by norm_num) (by norm_num)
    (by
      rintro ⟨z, hz⟩
      have hz' : (2 : ℤ) = z * 4 := by exact_mod_cast hz
      omega)
    simulate_one_block
